import Mathlib

/-!
Verification of the IMS shoebox room-simulator core
(`framework/modules/saf_reverb/saf_reverb_internal.c`).

The C code is shallowly embedded: the scalar type `float` is modelled by `ℝ`
(exact real arithmetic; floating-point rounding is not modelled), the
`int` room dimensions by `ℤ`, and the dynamically sized arrays by `List`s.
The stateful workspace (`ims_core_workspace`) becomes a structure that is
threaded explicitly: each C routine is a function from the workspace (plus
its arguments) to the updated workspace.
-/

/-- A 3-D position (`ims_pos_xyz` in the source: fields x, y, z). -/
abbrev Vec3 : Type := ℝ × ℝ × ℝ

/-- The echogram container (`echogram_data` in the source).  `value` is the
`numImageSources × nChannels` gain matrix, `order` the per-arrival signed
reflection-order triples, `coords` the per-arrival coordinates relative to
the receiver, and `sortedIdx` the time-ordering permutation. -/
structure echogram_data where
  numImageSources : ℕ
  nChannels : ℕ
  value : List (List ℝ)
  time : List ℝ
  order : List (ℤ × ℤ × ℤ)
  coords : List Vec3
  sortedIdx : List ℕ

/-- The empty echogram, as produced by `ims_shoebox_echogramCreate`. -/
def emptyEchogram : echogram_data :=
  { numImageSources := 0, nChannels := 0, value := [], time := [],
    order := [], coords := [], sortedIdx := [] }

/-- The per-(source,receiver) workspace (`ims_core_workspace` in the source).
The three parallel scratch arrays `II`, `JJ`, `KK` (float arrays holding
integer-valued lattice indices) are modelled as the single list `lattice` of
integer triples; `s_x`, `s_y`, `s_z` are merged into the list `s` of
coordinate triples.  The C field `rec` is renamed `recv` because `rec` is a
reserved name for structure recursors in Lean.  Cached `src`/`recv` hold the
last room-centred (mirrored) positions, exactly as in the C code. -/
structure ims_core_workspace where
  d_max : ℝ
  room : ℤ × ℤ × ℤ
  src : Vec3
  recv : Vec3
  Nx : ℕ
  Ny : ℕ
  Nz : ℕ
  lengthVec : ℕ
  lattice : List (ℤ × ℤ × ℤ)
  validIDs : List Bool
  s : List Vec3
  s_d : List ℝ
  numImageSources : ℕ
  nBands : ℕ
  hEchogram : echogram_data
  hEchogram_rec : echogram_data
  hEchogram_abs : List echogram_data

/-- Fresh workspace state as set up by `ims_shoebox_coreWorkspaceCreate`
(`d_max = 0`, room zeroed, cached positions `(-1,-1,-1)` to force reinit,
empty internals, `nBands` echogram containers). -/
noncomputable def ims_shoebox_coreWorkspaceCreate (nBands : ℕ) : ims_core_workspace :=
  { d_max := 0, room := (0, 0, 0), src := (-1, -1, -1), recv := (-1, -1, -1),
    Nx := 0, Ny := 0, Nz := 0, lengthVec := 0, lattice := [], validIDs := [],
    s := [], s_d := [], numImageSources := 0, nBands := nBands,
    hEchogram := emptyEchogram, hEchogram_rec := emptyEchogram,
    hEchogram_abs := List.replicate nBands emptyEchogram }

/-- Translation of a position to room-centred coordinates
(`saf_reverb_internal.c` lines 194-199): the x and z axes use `p - L/2`,
the y axis uses the flipped convention `L/2 - p`. -/
noncomputable def centerOrig (room : ℤ × ℤ × ℤ) (p : Vec3) : Vec3 :=
  (p.1 - (room.1 : ℝ) / 2, (room.2.1 : ℝ) / 2 - p.2.1, p.2.2 - (room.2.2 : ℝ) / 2)

/-- One step of the odometer that generates the `II/JJ/KK` lattice index
triples (lines 221-232): `ii` increments, carrying into `jj`, then into
`kk`, each wrapping from its bound `N` back to `-N`. -/
def odoStep (Nx Ny Nz : ℕ) (t : ℤ × ℤ × ℤ) : ℤ × ℤ × ℤ :=
  let i1 := t.1 + 1
  let i2 := if (Nx : ℤ) < i1 then -(Nx : ℤ) else i1
  let j1 := if (Nx : ℤ) < i1 then t.2.1 + 1 else t.2.1
  let j2 := if (Ny : ℤ) < j1 then -(Ny : ℤ) else j1
  let k1 := if (Ny : ℤ) < j1 then t.2.2 + 1 else t.2.2
  let k2 := if (Nz : ℤ) < k1 then -(Nz : ℤ) else k1
  (i2, j2, k2)

/-- The list of lattice index triples produced by running the odometer for
`n` steps from state `t` (the loop at lines 217-233 stores the current
triple and then steps). -/
def odoList (Nx Ny Nz : ℕ) : ℕ → (ℤ × ℤ × ℤ) → List (ℤ × ℤ × ℤ)
  | 0, _ => []
  | n + 1, t => t :: odoList Nx Ny Nz n (odoStep Nx Ny Nz t)

/-- Closed-form description of the `m`-th odometer triple: `i` varies
fastest over `[-Nx, Nx]`, then `j` over `[-Ny, Ny]`, then `k` over
`[-Nz, Nz]`. -/
def odoDecode (Nx Ny Nz : ℕ) (m : ℕ) : ℤ × ℤ × ℤ :=
  (-(Nx : ℤ) + ((m % (2 * Nx + 1) : ℕ) : ℤ),
   -(Ny : ℤ) + ((m / (2 * Nx + 1) % (2 * Ny + 1) : ℕ) : ℤ),
   -(Nz : ℤ) + ((m / (2 * Nx + 1) / (2 * Ny + 1) % (2 * Nz + 1) : ℕ) : ℤ))

/-- Condition of the first guarded block of `ims_shoebox_coreInit`
(lines 202-203): the cached maximum distance or any room dimension
changed. -/
def latticeCond (st : ims_core_workspace) (room : ℤ × ℤ × ℤ) (d_max : ℝ) : Prop :=
  st.d_max ≠ d_max ∨ st.room.1 ≠ room.1 ∨ st.room.2.1 ≠ room.2.1 ∨ st.room.2.2 ≠ room.2.2

/-- Condition of the second guarded block of `ims_shoebox_coreInit`
(lines 246-248): the cached (room-centred) receiver or source position or
a room dimension differs.  Note that the room cache has already been
refreshed by the first block at the point of this comparison. -/
def echogramCond (st : ims_core_workspace) (srcO recO : Vec3) (room : ℤ × ℤ × ℤ) : Prop :=
  st.recv ≠ recO ∨ st.src ≠ srcO ∨
    st.room.1 ≠ room.1 ∨ st.room.2.1 ≠ room.2.1 ∨ st.room.2.2 ≠ room.2.2

noncomputable instance (st : ims_core_workspace) (room : ℤ × ℤ × ℤ) (d_max : ℝ) :
    Decidable (latticeCond st room d_max) := by
  unfold latticeCond; infer_instance

noncomputable instance (st : ims_core_workspace) (srcO recO : Vec3) (room : ℤ × ℤ × ℤ) :
    Decidable (echogramCond st srcO recO room) := by
  unfold echogramCond; infer_instance

/-- Body of the first guarded block (lines 205-242): recompute the per-axis
bounds `N_axis = (int)(d_max/room_axis + 1)` (the `(int)` cast is modelled
by `Int.floor ∘ Int.toNat`, which agrees with C truncation for the
non-negative values the bounds take), the lattice size, and the odometer
triples.  The reallocations of the scratch arrays carry no values. -/
noncomputable def recomputeLattice (st : ims_core_workspace) (room : ℤ × ℤ × ℤ)
    (d_max : ℝ) : ims_core_workspace :=
  let Nx := (⌊d_max / (room.1 : ℝ) + 1⌋).toNat
  let Ny := (⌊d_max / (room.2.1 : ℝ) + 1⌋).toNat
  let Nz := (⌊d_max / (room.2.2 : ℝ) + 1⌋).toNat
  let lengthVec := (2 * Nx + 1) * (2 * Ny + 1) * (2 * Nz + 1)
  { st with
    d_max := d_max
    room := room
    Nx := Nx
    Ny := Ny
    Nz := Nz
    lengthVec := lengthVec
    lattice := odoList Nx Ny Nz lengthVec (-(Nx : ℤ), -(Ny : ℤ), -(Nz : ℤ)) }

/-- Image-source coordinate relative to the receiver for lattice triple
`(i,j,k)` (lines 256-258): per axis `s = i·L + (-1)^i · srcO - recO`, with
`srcO`, `recO` the room-centred positions. -/
noncomputable def imageSourceCoord (room : ℤ × ℤ × ℤ) (srcO recO : Vec3)
    (t : ℤ × ℤ × ℤ) : Vec3 :=
  ((t.1 : ℝ) * (room.1 : ℝ) + (-1 : ℝ) ^ t.1 * srcO.1 - recO.1,
   (t.2.1 : ℝ) * (room.2.1 : ℝ) + (-1 : ℝ) ^ t.2.1 * srcO.2.1 - recO.2.1,
   (t.2.2 : ℝ) * (room.2.2 : ℝ) + (-1 : ℝ) ^ t.2.2 * srcO.2.2 - recO.2.2)

/-- Euclidean distance of an image source from the receiver (line 259). -/
noncomputable def distOf (p : Vec3) : ℝ :=
  Real.sqrt (p.1 ^ 2 + p.2.1 ^ 2 + p.2.2 ^ 2)

/-- Reflection propagation attenuation (line 282): `1` if the distance is
at most one metre (to avoid amplification), else `1/d`. -/
noncomputable def reflAtten (d : ℝ) : ℝ := if d ≤ 1 then 1 else 1 / d

/-- The relation "arrival index `a` has time at most that of index `b`"
used to model the index sort. -/
def timeLE (ts : List ℝ) (a b : ℕ) : Prop := ts.getD a 0 ≤ ts.getD b 0

noncomputable instance (ts : List ℝ) : DecidableRel (timeLE ts) :=
  fun a b => inferInstanceAs (Decidable (ts.getD a 0 ≤ ts.getD b 0))

instance (ts : List ℝ) : IsTotal ℕ (timeLE ts) := ⟨fun _ _ => le_total _ _⟩

instance (ts : List ℝ) : IsTrans ℕ (timeLE ts) := ⟨fun _ _ _ h h2 => le_trans h h2⟩

/-- Modelled from the spec: `sortf` (a sorting utility from the excluded
`saf_utilities` collaborator, not present under `src/`) is called at line
298 with a `NULL` output-value pointer and `descendFLAG = 0`; per the spec
(§4.1 step 7) it returns "the permutation sorting `time` ascending" while
leaving the underlying arrays untouched.  Modelled as a stable insertion
sort of the index list `[0, …, n-1]` keyed by the time values. -/
noncomputable def sortf (ts : List ℝ) : List ℕ :=
  List.insertionSort (timeLE ts) (List.range ts.length)

/-- The C `(int)` cast of a float value: truncation toward zero
(`⌊x⌋` for non-negative `x`, `⌈x⌉` for negative `x`). -/
noncomputable def intCastC (x : ℝ) : ℤ := if 0 ≤ x then ⌊x⌋ else ⌈x⌉

/-- The rounding `(int)(x + 0.5f)` that lines 285-287 apply to the
integer-valued `II/JJ/KK` floats to obtain the stored reflection-order
components.  Because the C cast truncates toward zero, this yields `m`
for a non-negative integer `m` but `m + 1` for a negative one
(`(int)(-0.5f) = 0`, `(int)(-1.5f) = -1`, ...). -/
noncomputable def roundOrder (m : ℤ) : ℤ := intCastC ((m : ℝ) + 1 / 2)

/-- Per-lattice-point data recomputed by the second guarded block
(lines 255-260): the triple, the image-source coordinate relative to the
receiver, and its distance. -/
noncomputable def latticeEntries (st : ims_core_workspace) (room : ℤ × ℤ × ℤ)
    (srcO recO : Vec3) : List ((ℤ × ℤ × ℤ) × Vec3 × ℝ) :=
  st.lattice.map (fun t =>
    let p := imageSourceCoord room srcO recO t
    (t, p, distOf p))

/-- The lattice entries that survive the distance cull (`s_d < d_max`,
lines 263-270). -/
noncomputable def validLatticeEntries (st : ims_core_workspace) (room : ℤ × ℤ × ℤ)
    (srcO recO : Vec3) (d_max : ℝ) : List ((ℤ × ℤ × ℤ) × Vec3 × ℝ) :=
  (latticeEntries st room srcO recO).filter (fun e => decide (e.2.2 < d_max))

/-- Body of the second guarded block of `ims_shoebox_coreInit`
(lines 250-298): cache the room and the centred positions, recompute the
image-source coordinates and distances for every lattice triple, cull the
points with distance `< d_max` (counting them into `numImageSources`),
resize the raw echogram to `(numImageSources, 1)` and fill it in
lattice-enumeration order, then compute `sortedIdx`.  The per-arrival
`order` entries are the `(int)(II+0.5f)` roundings of the exactly
integer-valued `II/JJ/KK` floats, modelled by `roundOrder` (truncation
toward zero, which increments negative components by one). -/
noncomputable def recomputeEchogram (st : ims_core_workspace) (room : ℤ × ℤ × ℤ)
    (srcO recO : Vec3) (d_max c_ms : ℝ) : ims_core_workspace :=
  let entries := latticeEntries st room srcO recO
  let s := entries.map (fun e => e.2.1)
  let s_d := entries.map (fun e => e.2.2)
  let validIDs := s_d.map (fun d => decide (d < d_max))
  let numImageSources := s_d.foldl (fun n d => if d < d_max then n + 1 else n) 0
  let validEntries := validLatticeEntries st room srcO recO d_max
  let time := validEntries.map (fun e => e.2.2 / c_ms)
  { st with
    room := room
    recv := recO
    src := srcO
    s := s
    s_d := s_d
    validIDs := validIDs
    numImageSources := numImageSources
    hEchogram :=
      { numImageSources := numImageSources
        nChannels := 1
        value := validEntries.map (fun e => [reflAtten e.2.2])
        time := time
        order := validEntries.map (fun e =>
          (roundOrder e.1.1, roundOrder e.1.2.1, roundOrder e.1.2.2))
        coords := validEntries.map (fun e => e.2.1)
        sortedIdx := sortf time } }

/-- First guarded block of `ims_shoebox_coreInit` (lines 201-243). -/
noncomputable def coreInitStage1 (st : ims_core_workspace) (room : ℤ × ℤ × ℤ)
    (d_max : ℝ) : ims_core_workspace :=
  if latticeCond st room d_max then recomputeLattice st room d_max else st

/-- Second guarded block of `ims_shoebox_coreInit` (lines 245-299). -/
noncomputable def coreInitStage2 (st : ims_core_workspace) (room : ℤ × ℤ × ℤ)
    (srcO recO : Vec3) (d_max c_ms : ℝ) : ims_core_workspace :=
  if echogramCond st srcO recO room then recomputeEchogram st room srcO recO d_max c_ms
  else st

/-- The lattice generator / distance culler `ims_shoebox_coreInit`
(lines 174-300): derive `d_max = maxTime_s · c_ms` and the room-centred
positions, then run the two memoized blocks in order. -/
noncomputable def ims_shoebox_coreInit (st : ims_core_workspace) (room : ℤ × ℤ × ℤ)
    (src recv : Vec3) (maxTime_s c_ms : ℝ) : ims_core_workspace :=
  let d_max := maxTime_s * c_ms
  let srcO := centerOrig room src
  let recO := centerOrig room recv
  coreInitStage2 (coreInitStage1 st room d_max) room srcO recO d_max c_ms

/-- Proposition: the given call to `ims_shoebox_coreInit` takes the
echogram-recomputation branch (the condition at lines 246-248, evaluated
after the first block has possibly refreshed the cached room). -/
noncomputable def echogramRecomputed (st : ims_core_workspace) (room : ℤ × ℤ × ℤ)
    (src recv : Vec3) (maxTime_s c_ms : ℝ) : Prop :=
  echogramCond (coreInitStage1 st room (maxTime_s * c_ms))
    (centerOrig room src) (centerOrig room recv) room

/-- Helper for reading a gain row of an echogram (row `i` of `value`). -/
def gainRow (eg : echogram_data) (i : ℕ) : List ℝ := eg.value.getD i []

/-- The receiver directivity encoder `ims_shoebox_coreRecModuleSH`
(lines 302-350).  `nSH = (sh_order+1)²` (the `ORDER2NSH` macro).  The
destination echogram `hEchogram_rec` is resized to
`(numImageSources, nSH)`; `time`, `order`, `coords` are copied from the
raw echogram through its `sortedIdx` (ascending time order) and
`sortedIdx` is reset to the identity.  For `sh_order = 0` the single omni
gain channel is copied directly (also in time order); otherwise each
arrival's gain vector is the real spherical-harmonic basis evaluated at
the arrival's direction scaled by the omni gain.  The external
collaborators `unitCart2Sph` and `getSHreal_recur` (not under `src/`) are
modelled by the parameter `shGains`, mapping a relative coordinate to the
basis-vector evaluation for the given order. -/
noncomputable def ims_shoebox_coreRecModuleSH (st : ims_core_workspace) (sh_order : ℕ)
    (shGains : ℕ → Vec3 → List ℝ) : ims_core_workspace :=
  let eg := st.hEchogram
  let N := eg.numImageSources
  let nSH := (sh_order + 1) ^ 2
  let sIdx := fun i => eg.sortedIdx.getD i 0
  let rec_coords := (List.range N).map (fun i => eg.coords.getD (sIdx i) (0, 0, 0))
  { st with
    hEchogram_rec :=
      { numImageSources := N
        nChannels := nSH
        time := (List.range N).map (fun i => eg.time.getD (sIdx i) 0)
        order := (List.range N).map (fun i => eg.order.getD (sIdx i) (0, 0, 0))
        coords := rec_coords
        sortedIdx := List.range N
        value :=
          if sh_order = 0 then
            (List.range N).map (fun i => [(gainRow eg (sIdx i)).getD 0 0])
          else
            (List.range N).map (fun i =>
              (shGains sh_order (rec_coords.getD i (0, 0, 0))).map
                (fun g => g * (gainRow eg (sIdx i)).getD 0 0)) } }

/-- Wall reflection coefficient from an absorption coefficient
(lines 380-385): `r = sqrt(1 - absorption)`. -/
noncomputable def reflectionCoeff (a : ℝ) : ℝ := Real.sqrt (1 - a)

/-- Per-axis attenuation for signed reflection order `m` given the two
wall reflection coefficients of that axis (lines 391-412).  The float
exponents `|m|/2`, `ceil(m/2)`, `floor(m/2)` are exact small integers and
are modelled as the corresponding natural numbers. -/
noncomputable def axisAttenuation (r0 r1 : ℝ) (m : ℤ) : ℝ :=
  if m % 2 = 0 then r0 ^ (m.natAbs / 2) * r1 ^ (m.natAbs / 2)
  else if 0 < m then r0 ^ (m.natAbs / 2 + 1) * r1 ^ (m.natAbs / 2)
  else r0 ^ (m.natAbs / 2) * r1 ^ (m.natAbs / 2 + 1)

/-- Total attenuation scalar of an arrival (line 415): the product of the
three per-axis attenuations, with `r 0 … r 5` the reflection coefficients
of the x, y, z wall pairs. -/
noncomputable def totalAttenuation (r : Fin 6 → ℝ) (ord : ℤ × ℤ × ℤ) : ℝ :=
  axisAttenuation (r 0) (r 1) ord.1 * axisAttenuation (r 2) (r 3) ord.2.1 *
    axisAttenuation (r 4) (r 5) ord.2.2

/-- The octave-band absorption module `ims_shoebox_coreAbsorptionModule`
(lines 352-419).  For every band the directivity-encoded echogram is
copied verbatim into the band's container and every arrival's gain vector
is scaled in place by its total attenuation scalar.  `abs_wall band w` is
the absorption coefficient of wall `w` (two walls per axis) in that band.
The in-place scalar-vector multiply `utility_svsmul` is an excluded
collaborator, modelled from the spec (§4.3: "multiply every channel of
that arrival's gain vector by this scalar in place"). -/
noncomputable def ims_shoebox_coreAbsorptionModule (st : ims_core_workspace)
    (abs_wall : ℕ → Fin 6 → ℝ) : ims_core_workspace :=
  let egr := st.hEchogram_rec
  { st with
    hEchogram_abs := (List.range st.nBands).map (fun band =>
      let r : Fin 6 → ℝ := fun w => reflectionCoeff (abs_wall band w)
      { egr with
        value := (List.range egr.numImageSources).map (fun i =>
          (gainRow egr i).map
            (fun g => g * totalAttenuation r (egr.order.getD i (0, 0, 0)))) }) }

/-- Last-arrival time read by the RIR renderer (line 441):
`endtime = time[numImageSources - 1]`. -/
def ims_endtime (eg : echogram_data) : ℝ := eg.time.getD (eg.numImageSources - 1) 0

/-- Per-band impulse-train length in samples (line 442):
`rir_len_samples = (int)(endtime·fs + 1) + 1`. -/
noncomputable def ims_rirLenSamples (eg : echogram_data) (fs : ℝ) : ℤ :=
  ⌊ims_endtime eg * fs + 1⌋ + 1

/-- Nearest-sample accumulation index of arrival `i` (line 458):
`refl_idx = (int)(time[i]·fs + 0.5)`. -/
noncomputable def ims_reflIdx (eg : echogram_data) (fs : ℝ) (i : ℕ) : ℤ :=
  ⌊eg.time.getD i 0 * fs + 1 / 2⌋

/-- Channel `j` of the per-band impulse train built by the accumulation
loop of `ims_shoebox_renderRIR` (lines 457-461): starting from a zeroed
buffer, each arrival adds its gain at its rounded sample index
(collisions accumulate). -/
noncomputable def ims_impulseTrain (eg : echogram_data) (fs : ℝ) (j : ℕ) : ℤ → ℝ :=
  (List.range eg.numImageSources).foldl
    (fun buf i => fun n =>
      if n = ims_reflIdx eg fs i then buf n + (gainRow eg i).getD j 0 else buf n)
    (fun _ => 0)

/-- A one-arrival, one-channel echogram used as a concrete test state:
a single direct path with propagation time `1/2` s and unit gain. -/
noncomputable def egHalf : echogram_data :=
  { numImageSources := 1, nChannels := 1, value := [[1]], time := [1 / 2],
    order := [(0, 0, 0)], coords := [(0, 0, 0)], sortedIdx := [0] }

/-- A concrete two-arrival, one-channel echogram whose arrivals are
already in ascending time order, with identity `sortedIdx`. -/
noncomputable def egTwo : echogram_data :=
  { numImageSources := 2, nChannels := 1, value := [[1], [1 / 2]],
    time := [1 / 10, 1 / 5], order := [(0, 0, 0), (1, 0, 0)],
    coords := [(1, 0, 0), (2, 0, 0)], sortedIdx := [0, 1] }

/-- A fresh one-band workspace (the `ims_shoebox_coreWorkspaceCreate`
state) used as a concrete test state. -/
noncomputable def W0 : ims_core_workspace := ims_shoebox_coreWorkspaceCreate 1

/-- `W0` with `egTwo` installed as the raw echogram, used to exercise the
directivity encoder on a concrete input. -/
noncomputable def Wraw : ims_core_workspace := { W0 with hEchogram := egTwo }

/-- `W0` with `egTwo` installed as the directivity-encoded echogram, used
to exercise the absorption module on a concrete input. -/
noncomputable def Wrec : ims_core_workspace := { W0 with hEchogram_rec := egTwo }

/-- A workspace whose caches are consistent with room `(2,2,2)` and
centred source/receiver positions `(0,0,0)` (world positions `(1,1,1)`),
with recognisably stale internals (`s`, `s_d` empty, `numImageSources`
and the raw echogram empty); used to exhibit the lattice-stage/echogram-
stage invalidation mismatch on a concrete call. -/
noncomputable def Wstale : ims_core_workspace :=
  { W0 with
    d_max := 1
    room := (2, 2, 2)
    src := (0, 0, 0)
    recv := (0, 0, 0) }

/-! ### Helper lemmas -/

theorem succ_mod_div_of_lt {m P : ℕ} (h : m % P + 1 < P) :
    (m + 1) % P = m % P + 1 ∧ (m + 1) / P = m / P := by
  have hP : 0 < P := lt_of_le_of_lt (Nat.zero_le _) h
  have hm := Nat.div_add_mod m P
  have hsplit : m + 1 = P * (m / P) + (m % P + 1) := by omega
  constructor
  · rw [hsplit, Nat.mul_add_mod]
    exact Nat.mod_eq_of_lt h
  · rw [hsplit, Nat.mul_add_div hP, Nat.div_eq_of_lt h]
    omega

theorem succ_mod_div_of_eq {m P : ℕ} (hP : 0 < P) (h : m % P + 1 = P) :
    (m + 1) % P = 0 ∧ (m + 1) / P = m / P + 1 := by
  have hm := Nat.div_add_mod m P
  have hsplit : m + 1 = P * (m / P + 1) := by rw [Nat.mul_succ]; omega
  rw [hsplit]
  exact ⟨Nat.mul_mod_right _ _, Nat.mul_div_cancel_left _ hP⟩

theorem odoStep_decode (Nx Ny Nz m : ℕ) :
    odoStep Nx Ny Nz (odoDecode Nx Ny Nz m) = odoDecode Nx Ny Nz (m + 1) := by
  have hP : 0 < 2 * Nx + 1 := by omega
  have hQ : 0 < 2 * Ny + 1 := by omega
  have hR : 0 < 2 * Nz + 1 := by omega
  have ha : m % (2 * Nx + 1) < 2 * Nx + 1 := Nat.mod_lt _ hP
  have hb : m / (2 * Nx + 1) % (2 * Ny + 1) < 2 * Ny + 1 := Nat.mod_lt _ hQ
  have hc : m / (2 * Nx + 1) / (2 * Ny + 1) % (2 * Nz + 1) < 2 * Nz + 1 := Nat.mod_lt _ hR
  rcases Nat.lt_or_ge (m % (2 * Nx + 1) + 1) (2 * Nx + 1) with hcase | hcase
  · obtain ⟨h1, h2⟩ := succ_mod_div_of_lt hcase
    simp only [odoStep, odoDecode, h1, h2]
    have hnoc : ¬ ((Nx : ℤ) < -(Nx : ℤ) + (m % (2 * Nx + 1) : ℕ) + 1) := by omega
    rw [if_neg hnoc, if_neg hnoc]
    have hnoj : ¬ ((Ny : ℤ) < -(Ny : ℤ) + (m / (2 * Nx + 1) % (2 * Ny + 1) : ℕ)) := by
      omega
    rw [if_neg hnoj, if_neg hnoj]
    have hnok : ¬ ((Nz : ℤ) < -(Nz : ℤ) + (m / (2 * Nx + 1) / (2 * Ny + 1) % (2 * Nz + 1) : ℕ)) := by
      omega
    rw [if_neg hnok]
    refine Prod.ext ?_ (Prod.ext ?_ ?_) <;> simp <;> omega
  · have heq : m % (2 * Nx + 1) + 1 = 2 * Nx + 1 := by omega
    obtain ⟨h1, h2⟩ := succ_mod_div_of_eq hP heq
    simp only [odoStep, odoDecode, h1, h2]
    have hyc : (Nx : ℤ) < -(Nx : ℤ) + (m % (2 * Nx + 1) : ℕ) + 1 := by omega
    rw [if_pos hyc, if_pos hyc]
    rcases Nat.lt_or_ge (m / (2 * Nx + 1) % (2 * Ny + 1) + 1) (2 * Ny + 1) with hcq | hcq
    · obtain ⟨h3, h4⟩ := succ_mod_div_of_lt hcq
      rw [h3, h4]
      have hnoj : ¬ ((Ny : ℤ) < -(Ny : ℤ) + (m / (2 * Nx + 1) % (2 * Ny + 1) : ℕ) + 1) := by
        omega
      rw [if_neg hnoj, if_neg hnoj]
      have hnok : ¬ ((Nz : ℤ) < -(Nz : ℤ) + (m / (2 * Nx + 1) / (2 * Ny + 1) % (2 * Nz + 1) : ℕ)) := by
        omega
      rw [if_neg hnok]
      refine Prod.ext ?_ (Prod.ext ?_ ?_) <;> simp <;> omega
    · have heq2 : m / (2 * Nx + 1) % (2 * Ny + 1) + 1 = 2 * Ny + 1 := by omega
      obtain ⟨h3, h4⟩ := succ_mod_div_of_eq hQ heq2
      rw [h3, h4]
      have hyj : (Ny : ℤ) < -(Ny : ℤ) + (m / (2 * Nx + 1) % (2 * Ny + 1) : ℕ) + 1 := by
        omega
      rw [if_pos hyj, if_pos hyj]
      rcases Nat.lt_or_ge (m / (2 * Nx + 1) / (2 * Ny + 1) % (2 * Nz + 1) + 1) (2 * Nz + 1) with hcr | hcr
      · obtain ⟨h5, _⟩ := succ_mod_div_of_lt hcr
        rw [h5]
        have hnok : ¬ ((Nz : ℤ) < -(Nz : ℤ) + (m / (2 * Nx + 1) / (2 * Ny + 1) % (2 * Nz + 1) : ℕ) + 1) := by
          omega
        rw [if_neg hnok]
        refine Prod.ext ?_ (Prod.ext ?_ ?_) <;> simp <;> omega
      · have heq3 : m / (2 * Nx + 1) / (2 * Ny + 1) % (2 * Nz + 1) + 1 = 2 * Nz + 1 := by omega
        obtain ⟨h5, _⟩ := succ_mod_div_of_eq hR heq3
        rw [h5]
        have hyk : (Nz : ℤ) < -(Nz : ℤ) + (m / (2 * Nx + 1) / (2 * Ny + 1) % (2 * Nz + 1) : ℕ) + 1 := by
          omega
        rw [if_pos hyk]
        refine Prod.ext ?_ (Prod.ext ?_ ?_) <;> simp <;> omega

theorem odoDecode_zero (Nx Ny Nz : ℕ) :
    odoDecode Nx Ny Nz 0 = (-(Nx : ℤ), -(Ny : ℤ), -(Nz : ℤ)) := by
  simp [odoDecode]

theorem iterate_odoStep_decode (Nx Ny Nz m : ℕ) :
    (odoStep Nx Ny Nz)^[m] (-(Nx : ℤ), -(Ny : ℤ), -(Nz : ℤ)) = odoDecode Nx Ny Nz m := by
  induction m with
  | zero => simp [odoDecode_zero]
  | succ n ih =>
      rw [Function.iterate_succ_apply', ih, odoStep_decode]

theorem odoList_length (Nx Ny Nz : ℕ) : ∀ (n : ℕ) (t : ℤ × ℤ × ℤ),
    (odoList Nx Ny Nz n t).length = n := by
  intro n
  induction n with
  | zero => intro t; rfl
  | succ k ih => intro t; simp [odoList, ih]

theorem odoList_getD (Nx Ny Nz : ℕ) (d : ℤ × ℤ × ℤ) : ∀ (n m : ℕ) (t : ℤ × ℤ × ℤ),
    m < n → (odoList Nx Ny Nz n t).getD m d = (odoStep Nx Ny Nz)^[m] t := by
  intro n
  induction n with
  | zero => intro m t h; omega
  | succ k ih =>
      intro m t h
      cases m with
      | zero => rfl
      | succ m' =>
          have : (odoList Nx Ny Nz (k + 1) t).getD (m' + 1) d
              = (odoList Nx Ny Nz k (odoStep Nx Ny Nz t)).getD m' d := rfl
          rw [this, ih m' _ (by omega), Function.iterate_succ_apply]

theorem countValid_eq_length_filter (p : ℝ → Prop) [DecidablePred p] (l : List ℝ) :
    l.foldl (fun n d => if p d then n + 1 else n) 0 = (l.filter (fun d => decide (p d))).length := by
  suffices h : ∀ (init : ℕ),
      l.foldl (fun n d => if p d then n + 1 else n) init
        = init + (l.filter (fun d => decide (p d))).length by
    simpa using h 0
  induction l with
  | nil => intro init; simp
  | cons x xs ih =>
      intro init
      by_cases hx : p x <;> simp [List.foldl_cons, hx, ih] <;> omega

theorem getD_map_range {α : Type} (f : ℕ → α) (d : α) {i N : ℕ} (h : i < N) :
    (((List.range N).map f).getD i d) = f i := by
  rw [List.getD_eq_getElem _ _ (by simpa using h)]
  simp

theorem list_eq_map_range_getD {α : Type} (l : List α) (d : α) :
    l = (List.range l.length).map (fun i => l.getD i d) := by
  apply List.ext_getElem
  · simp
  · intro i h1 h2
    rw [List.getElem_map, List.getElem_range]
    exact (List.getD_eq_getElem l d h1).symm

theorem coreInitStage1_d_max (st : ims_core_workspace) (room : ℤ × ℤ × ℤ) (d_max : ℝ) :
    (coreInitStage1 st room d_max).d_max = d_max := by
  unfold coreInitStage1
  split
  · rfl
  · next h => simp only [latticeCond] at h; push_neg at h; exact h.1

theorem coreInitStage1_room (st : ims_core_workspace) (room : ℤ × ℤ × ℤ) (d_max : ℝ) :
    (coreInitStage1 st room d_max).room = room := by
  unfold coreInitStage1
  split
  · rfl
  · next h =>
      simp only [latticeCond] at h
      push_neg at h
      obtain ⟨-, h1, h2, h3⟩ := h
      exact Prod.ext h1 (Prod.ext h2 h3)

theorem coreInitStage1_src (st : ims_core_workspace) (room : ℤ × ℤ × ℤ) (d_max : ℝ) :
    (coreInitStage1 st room d_max).src = st.src := by
  unfold coreInitStage1
  split <;> rfl

theorem coreInitStage1_recv (st : ims_core_workspace) (room : ℤ × ℤ × ℤ) (d_max : ℝ) :
    (coreInitStage1 st room d_max).recv = st.recv := by
  unfold coreInitStage1
  split <;> rfl

theorem coreInitStage1_hEchogram (st : ims_core_workspace) (room : ℤ × ℤ × ℤ) (d_max : ℝ) :
    (coreInitStage1 st room d_max).hEchogram = st.hEchogram := by
  unfold coreInitStage1
  split <;> rfl

theorem coreInitStage2_d_max (st : ims_core_workspace) (room : ℤ × ℤ × ℤ)
    (srcO recO : Vec3) (d_max c_ms : ℝ) :
    (coreInitStage2 st room srcO recO d_max c_ms).d_max = st.d_max := by
  unfold coreInitStage2
  split <;> rfl

theorem coreInitStage2_Nx (st : ims_core_workspace) (room : ℤ × ℤ × ℤ)
    (srcO recO : Vec3) (d_max c_ms : ℝ) :
    (coreInitStage2 st room srcO recO d_max c_ms).Nx = st.Nx := by
  unfold coreInitStage2
  split <;> rfl

theorem coreInitStage2_Ny (st : ims_core_workspace) (room : ℤ × ℤ × ℤ)
    (srcO recO : Vec3) (d_max c_ms : ℝ) :
    (coreInitStage2 st room srcO recO d_max c_ms).Ny = st.Ny := by
  unfold coreInitStage2
  split <;> rfl

theorem coreInitStage2_Nz (st : ims_core_workspace) (room : ℤ × ℤ × ℤ)
    (srcO recO : Vec3) (d_max c_ms : ℝ) :
    (coreInitStage2 st room srcO recO d_max c_ms).Nz = st.Nz := by
  unfold coreInitStage2
  split <;> rfl

theorem coreInitStage2_lengthVec (st : ims_core_workspace) (room : ℤ × ℤ × ℤ)
    (srcO recO : Vec3) (d_max c_ms : ℝ) :
    (coreInitStage2 st room srcO recO d_max c_ms).lengthVec = st.lengthVec := by
  unfold coreInitStage2
  split <;> rfl

theorem coreInitStage2_lattice (st : ims_core_workspace) (room : ℤ × ℤ × ℤ)
    (srcO recO : Vec3) (d_max c_ms : ℝ) :
    (coreInitStage2 st room srcO recO d_max c_ms).lattice = st.lattice := by
  unfold coreInitStage2
  split <;> rfl

theorem coreInitStage2_recv (st : ims_core_workspace) (room : ℤ × ℤ × ℤ)
    (srcO recO : Vec3) (d_max c_ms : ℝ) :
    (coreInitStage2 st room srcO recO d_max c_ms).recv = recO := by
  unfold coreInitStage2
  split
  · rfl
  · next h => simp only [echogramCond] at h; push_neg at h; exact h.1

theorem coreInitStage2_src (st : ims_core_workspace) (room : ℤ × ℤ × ℤ)
    (srcO recO : Vec3) (d_max c_ms : ℝ) :
    (coreInitStage2 st room srcO recO d_max c_ms).src = srcO := by
  unfold coreInitStage2
  split
  · rfl
  · next h => simp only [echogramCond] at h; push_neg at h; exact h.2.1

theorem coreInitStage2_room (st : ims_core_workspace) (room : ℤ × ℤ × ℤ)
    (srcO recO : Vec3) (d_max c_ms : ℝ) (h : st.room = room) :
    (coreInitStage2 st room srcO recO d_max c_ms).room = room := by
  unfold coreInitStage2
  split <;> simp [recomputeEchogram, h]

theorem coreInit_noop_of_cached (w : ims_core_workspace) (room : ℤ × ℤ × ℤ)
    (src recv : Vec3) (maxTime_s c_ms : ℝ)
    (hd : w.d_max = maxTime_s * c_ms) (hr : w.room = room)
    (hv : w.recv = centerOrig room recv) (hs : w.src = centerOrig room src) :
    ims_shoebox_coreInit w room src recv maxTime_s c_ms = w
      ∧ ¬ latticeCond w room (maxTime_s * c_ms)
      ∧ ¬ echogramRecomputed w room src recv maxTime_s c_ms := by
  have hlc : ¬ latticeCond w room (maxTime_s * c_ms) := by
    simp [latticeCond, hd, hr]
  have hst1 : coreInitStage1 w room (maxTime_s * c_ms) = w := by
    unfold coreInitStage1
    rw [if_neg hlc]
  have hec : ¬ echogramCond w (centerOrig room src) (centerOrig room recv) room := by
    simp [echogramCond, hv, hs, hr]
  refine ⟨?_, hlc, ?_⟩
  · show coreInitStage2 (coreInitStage1 w room (maxTime_s * c_ms)) room
      (centerOrig room src) (centerOrig room recv) (maxTime_s * c_ms) c_ms = w
    rw [hst1]
    unfold coreInitStage2
    rw [if_neg hec]
  · unfold echogramRecomputed
    rw [hst1]
    exact hec

theorem coreInit_d_max (st : ims_core_workspace) (room : ℤ × ℤ × ℤ)
    (src recv : Vec3) (maxTime_s c_ms : ℝ) :
    (ims_shoebox_coreInit st room src recv maxTime_s c_ms).d_max = maxTime_s * c_ms := by
  unfold ims_shoebox_coreInit
  rw [coreInitStage2_d_max, coreInitStage1_d_max]

theorem coreInit_room (st : ims_core_workspace) (room : ℤ × ℤ × ℤ)
    (src recv : Vec3) (maxTime_s c_ms : ℝ) :
    (ims_shoebox_coreInit st room src recv maxTime_s c_ms).room = room := by
  unfold ims_shoebox_coreInit
  exact coreInitStage2_room _ _ _ _ _ _ (coreInitStage1_room _ _ _)

theorem coreInit_recv (st : ims_core_workspace) (room : ℤ × ℤ × ℤ)
    (src recv : Vec3) (maxTime_s c_ms : ℝ) :
    (ims_shoebox_coreInit st room src recv maxTime_s c_ms).recv = centerOrig room recv := by
  unfold ims_shoebox_coreInit
  exact coreInitStage2_recv _ _ _ _ _ _

theorem coreInit_src (st : ims_core_workspace) (room : ℤ × ℤ × ℤ)
    (src recv : Vec3) (maxTime_s c_ms : ℝ) :
    (ims_shoebox_coreInit st room src recv maxTime_s c_ms).src = centerOrig room src := by
  unfold ims_shoebox_coreInit
  exact coreInitStage2_src _ _ _ _ _ _

/-- C2: for every workspace state, calling `ims_shoebox_coreInit` a second
time with the same room dimensions, source and receiver positions,
`maxTime_s` and speed of sound as the immediately preceding call leaves
the whole workspace (in particular the lattice arrays and the raw
echogram with its times, gains, orders, coordinates, `sortedIdx` and
`numImageSources`) identical, and neither guarded block recomputes
anything: both memoization conditions are false on the second call. -/
theorem C2_coreInit_second_call_noop (st : ims_core_workspace) (room : ℤ × ℤ × ℤ)
    (src recv : Vec3) (maxTime_s c_ms : ℝ) :
    ims_shoebox_coreInit (ims_shoebox_coreInit st room src recv maxTime_s c_ms)
        room src recv maxTime_s c_ms
      = ims_shoebox_coreInit st room src recv maxTime_s c_ms
    ∧ ¬ latticeCond (ims_shoebox_coreInit st room src recv maxTime_s c_ms)
        room (maxTime_s * c_ms)
    ∧ ¬ echogramRecomputed (ims_shoebox_coreInit st room src recv maxTime_s c_ms)
        room src recv maxTime_s c_ms :=
  coreInit_noop_of_cached _ room src recv maxTime_s c_ms
    (coreInit_d_max st room src recv maxTime_s c_ms)
    (coreInit_room st room src recv maxTime_s c_ms)
    (coreInit_recv st room src recv maxTime_s c_ms)
    (coreInit_src st room src recv maxTime_s c_ms)

theorem coreInit_eq_recompute (st : ims_core_workspace) (room : ℤ × ℤ × ℤ)
    (src recv : Vec3) (maxTime_s c_ms : ℝ)
    (h : echogramRecomputed st room src recv maxTime_s c_ms) :
    ims_shoebox_coreInit st room src recv maxTime_s c_ms
      = recomputeEchogram (coreInitStage1 st room (maxTime_s * c_ms)) room
          (centerOrig room src) (centerOrig room recv) (maxTime_s * c_ms) c_ms := by
  unfold echogramRecomputed at h
  show coreInitStage2 (coreInitStage1 st room (maxTime_s * c_ms)) room
      (centerOrig room src) (centerOrig room recv) (maxTime_s * c_ms) c_ms = _
  unfold coreInitStage2
  rw [if_pos h]

theorem recomputeEchogram_lattice (w : ims_core_workspace) (room : ℤ × ℤ × ℤ)
    (srcO recO : Vec3) (d_max c_ms : ℝ) :
    (recomputeEchogram w room srcO recO d_max c_ms).lattice = w.lattice := rfl

theorem recomputeEchogram_s (w : ims_core_workspace) (room : ℤ × ℤ × ℤ)
    (srcO recO : Vec3) (d_max c_ms : ℝ) :
    (recomputeEchogram w room srcO recO d_max c_ms).s
      = w.lattice.map (imageSourceCoord room srcO recO) := by
  simp [recomputeEchogram, latticeEntries, List.map_map]

theorem recomputeEchogram_s_d (w : ims_core_workspace) (room : ℤ × ℤ × ℤ)
    (srcO recO : Vec3) (d_max c_ms : ℝ) :
    (recomputeEchogram w room srcO recO d_max c_ms).s_d
      = w.lattice.map (fun t => distOf (imageSourceCoord room srcO recO t)) := by
  simp [recomputeEchogram, latticeEntries, List.map_map]

theorem recomputeEchogram_numImageSources (w : ims_core_workspace) (room : ℤ × ℤ × ℤ)
    (srcO recO : Vec3) (d_max c_ms : ℝ) :
    (recomputeEchogram w room srcO recO d_max c_ms).numImageSources
      = ((recomputeEchogram w room srcO recO d_max c_ms).s_d.filter
          (fun x => decide (x < d_max))).length := by
  have hmap : (latticeEntries w room srcO recO).map (fun e => e.2.2)
      = w.lattice.map (fun t => distOf (imageSourceCoord room srcO recO t)) := by
    simp [latticeEntries, List.map_map]
  rw [recomputeEchogram_s_d]
  show ((latticeEntries w room srcO recO).map (fun e => e.2.2)).foldl
      (fun n d => if d < d_max then n + 1 else n) 0 = _
  rw [countValid_eq_length_filter (fun x => x < d_max), hmap]

theorem recomputeEchogram_hEchogram (w : ims_core_workspace) (room : ℤ × ℤ × ℤ)
    (srcO recO : Vec3) (d_max c_ms : ℝ) :
    (recomputeEchogram w room srcO recO d_max c_ms).hEchogram
      = { numImageSources := (recomputeEchogram w room srcO recO d_max c_ms).numImageSources
          nChannels := 1
          value := (validLatticeEntries w room srcO recO d_max).map (fun e => [reflAtten e.2.2])
          time := (validLatticeEntries w room srcO recO d_max).map (fun e => e.2.2 / c_ms)
          order := (validLatticeEntries w room srcO recO d_max).map (fun e =>
            (roundOrder e.1.1, roundOrder e.1.2.1, roundOrder e.1.2.2))
          coords := (validLatticeEntries w room srcO recO d_max).map (fun e => e.2.1)
          sortedIdx :=
            sortf ((validLatticeEntries w room srcO recO d_max).map (fun e => e.2.2 / c_ms)) } :=
  rfl

theorem validLatticeEntries_length (w : ims_core_workspace) (room : ℤ × ℤ × ℤ)
    (srcO recO : Vec3) (d_max c_ms : ℝ) :
    (validLatticeEntries w room srcO recO d_max).length
      = (recomputeEchogram w room srcO recO d_max c_ms).numImageSources := by
  rw [recomputeEchogram_numImageSources, recomputeEchogram_s_d]
  have hmap : w.lattice.map (fun t => distOf (imageSourceCoord room srcO recO t))
      = (latticeEntries w room srcO recO).map (fun e => e.2.2) := by
    simp [latticeEntries, List.map_map]
  rw [hmap, List.filter_map, List.length_map]
  rfl

/-- C1: for every call to `ims_shoebox_coreInit` that recomputes the
echogram, `numImageSources` equals the number of lattice points whose
Euclidean distance from the receiver is strictly below
`d_max = maxTime_s·c_ms` (the cull at line 264 is strict, so a point at
distance exactly `d_max` is excluded), and the raw echogram is resized to
exactly that many arrivals with one channel. -/
theorem C1_cull_count (st : ims_core_workspace) (room : ℤ × ℤ × ℤ) (src recv : Vec3)
    (maxTime_s c_ms : ℝ) (h : echogramRecomputed st room src recv maxTime_s c_ms) :
    (ims_shoebox_coreInit st room src recv maxTime_s c_ms).numImageSources
      = (((ims_shoebox_coreInit st room src recv maxTime_s c_ms).lattice.map
            (fun t => distOf (imageSourceCoord room (centerOrig room src)
              (centerOrig room recv) t))).filter
          (fun x => decide (x < maxTime_s * c_ms))).length
    ∧ (ims_shoebox_coreInit st room src recv maxTime_s c_ms).hEchogram.numImageSources
        = (ims_shoebox_coreInit st room src recv maxTime_s c_ms).numImageSources
    ∧ (ims_shoebox_coreInit st room src recv maxTime_s c_ms).hEchogram.nChannels = 1
    ∧ (ims_shoebox_coreInit st room src recv maxTime_s c_ms).hEchogram.time.length
        = (ims_shoebox_coreInit st room src recv maxTime_s c_ms).numImageSources
    ∧ (ims_shoebox_coreInit st room src recv maxTime_s c_ms).hEchogram.value.length
        = (ims_shoebox_coreInit st room src recv maxTime_s c_ms).numImageSources
    ∧ (ims_shoebox_coreInit st room src recv maxTime_s c_ms).hEchogram.order.length
        = (ims_shoebox_coreInit st room src recv maxTime_s c_ms).numImageSources
    ∧ (ims_shoebox_coreInit st room src recv maxTime_s c_ms).hEchogram.coords.length
        = (ims_shoebox_coreInit st room src recv maxTime_s c_ms).numImageSources := by
  rw [coreInit_eq_recompute st room src recv maxTime_s c_ms h]
  refine ⟨?_, rfl, rfl, ?_, ?_, ?_, ?_⟩
  · rw [recomputeEchogram_numImageSources, recomputeEchogram_s_d, recomputeEchogram_lattice]
  · rw [recomputeEchogram_hEchogram]
    simpa using validLatticeEntries_length _ room _ _ _ c_ms
  · rw [recomputeEchogram_hEchogram]
    simpa using validLatticeEntries_length _ room _ _ _ c_ms
  · rw [recomputeEchogram_hEchogram]
    simpa using validLatticeEntries_length _ room _ _ _ c_ms
  · rw [recomputeEchogram_hEchogram]
    simpa using validLatticeEntries_length _ room _ _ _ c_ms

theorem C1_cull_count_witness :
    echogramRecomputed W0 (1, 1, 1) (0, 0, 0) (0, 0, 0) 1 1
    ∧ (ims_shoebox_coreInit W0 (1, 1, 1) (0, 0, 0) (0, 0, 0) 1 1).hEchogram.nChannels = 1 :=
  have h : echogramRecomputed W0 (1, 1, 1) (0, 0, 0) (0, 0, 0) 1 1 := by
    unfold echogramRecomputed
    refine Or.inl ?_
    rw [coreInitStage1_recv]
    simp [W0, ims_shoebox_coreWorkspaceCreate, centerOrig, Prod.ext_iff]
  ⟨h, (C1_cull_count W0 (1, 1, 1) (0, 0, 0) (0, 0, 0) 1 1 h).2.2.1⟩

theorem lattice_getD_decode (Nx Ny Nz len m : ℕ) (hm : m < len) :
    (odoList Nx Ny Nz len (-(Nx : ℤ), -(Ny : ℤ), -(Nz : ℤ))).getD m (0, 0, 0)
      = odoDecode Nx Ny Nz m := by
  rw [odoList_getD Nx Ny Nz (0, 0, 0) len m _ hm, iterate_odoStep_decode]

theorem odoDecode_surjective_on_box (Nx Ny Nz : ℕ) (i j k : ℤ)
    (hi1 : -(Nx : ℤ) ≤ i) (hi2 : i ≤ (Nx : ℤ)) (hj1 : -(Ny : ℤ) ≤ j) (hj2 : j ≤ (Ny : ℤ))
    (hk1 : -(Nz : ℤ) ≤ k) (hk2 : k ≤ (Nz : ℤ)) :
    ∃ m, m < (2 * Nx + 1) * (2 * Ny + 1) * (2 * Nz + 1) ∧ odoDecode Nx Ny Nz m = (i, j, k) := by
  set a := (i + Nx).toNat with hadef
  set b := (j + Ny).toNat with hbdef
  set c := (k + Nz).toNat with hcdef
  have ha : a < 2 * Nx + 1 := by omega
  have hb : b < 2 * Ny + 1 := by omega
  have hc : c < 2 * Nz + 1 := by omega
  refine ⟨a + (2 * Nx + 1) * (b + (2 * Ny + 1) * c), ?_, ?_⟩
  · have e0 : (2 * Nx + 1) * (1 + (b + (2 * Ny + 1) * c))
        = (2 * Nx + 1) + ((2 * Nx + 1) * b + (2 * Nx + 1) * ((2 * Ny + 1) * c)) := by ring
    have e1 : (2 * Ny + 1) * (1 + c) = (2 * Ny + 1) + (2 * Ny + 1) * c := by ring
    have s0 : a + (2 * Nx + 1) * (b + (2 * Ny + 1) * c)
        < (2 * Nx + 1) * (1 + (b + (2 * Ny + 1) * c)) := by
      rw [e0, Nat.mul_add]
      omega
    have s1 : 1 + (b + (2 * Ny + 1) * c) ≤ (2 * Ny + 1) * (1 + c) := by
      rw [e1]
      omega
    have s2 : (2 * Ny + 1) * (1 + c) ≤ (2 * Ny + 1) * (2 * Nz + 1) :=
      Nat.mul_le_mul_left _ (by omega)
    calc a + (2 * Nx + 1) * (b + (2 * Ny + 1) * c)
        < (2 * Nx + 1) * (1 + (b + (2 * Ny + 1) * c)) := s0
      _ ≤ (2 * Nx + 1) * ((2 * Ny + 1) * (2 * Nz + 1)) :=
          Nat.mul_le_mul_left _ (le_trans s1 s2)
      _ = (2 * Nx + 1) * (2 * Ny + 1) * (2 * Nz + 1) := by ring
  · have hmodP : (a + (2 * Nx + 1) * (b + (2 * Ny + 1) * c)) % (2 * Nx + 1) = a := by
      rw [Nat.add_mul_mod_self_left]
      exact Nat.mod_eq_of_lt ha
    have hdivP : (a + (2 * Nx + 1) * (b + (2 * Ny + 1) * c)) / (2 * Nx + 1)
        = b + (2 * Ny + 1) * c := by
      rw [Nat.add_mul_div_left _ _ (by omega : 0 < 2 * Nx + 1), Nat.div_eq_of_lt ha]
      omega
    have hmodQ : (b + (2 * Ny + 1) * c) % (2 * Ny + 1) = b := by
      rw [Nat.add_mul_mod_self_left]
      exact Nat.mod_eq_of_lt hb
    have hdivQ : (b + (2 * Ny + 1) * c) / (2 * Ny + 1) = c := by
      rw [Nat.add_mul_div_left _ _ (by omega : 0 < 2 * Ny + 1), Nat.div_eq_of_lt hb]
      omega
    have hmodR : c % (2 * Nz + 1) = c := Nat.mod_eq_of_lt hc
    unfold odoDecode
    rw [hmodP, hdivP, hmodQ, hdivQ, hmodR]
    refine Prod.ext ?_ (Prod.ext ?_ ?_) <;> simp <;> omega

theorem coreInit_Nx_of_latticeCond (st : ims_core_workspace) (room : ℤ × ℤ × ℤ)
    (src recv : Vec3) (maxTime_s c_ms : ℝ) (h : latticeCond st room (maxTime_s * c_ms)) :
    (ims_shoebox_coreInit st room src recv maxTime_s c_ms).Nx
      = (⌊maxTime_s * c_ms / (room.1 : ℝ) + 1⌋).toNat := by
  show (coreInitStage2 (coreInitStage1 st room (maxTime_s * c_ms)) room _ _ _ _).Nx = _
  rw [coreInitStage2_Nx]
  unfold coreInitStage1
  rw [if_pos h]
  rfl

theorem coreInit_Ny_of_latticeCond (st : ims_core_workspace) (room : ℤ × ℤ × ℤ)
    (src recv : Vec3) (maxTime_s c_ms : ℝ) (h : latticeCond st room (maxTime_s * c_ms)) :
    (ims_shoebox_coreInit st room src recv maxTime_s c_ms).Ny
      = (⌊maxTime_s * c_ms / (room.2.1 : ℝ) + 1⌋).toNat := by
  show (coreInitStage2 (coreInitStage1 st room (maxTime_s * c_ms)) room _ _ _ _).Ny = _
  rw [coreInitStage2_Ny]
  unfold coreInitStage1
  rw [if_pos h]
  rfl

theorem coreInit_Nz_of_latticeCond (st : ims_core_workspace) (room : ℤ × ℤ × ℤ)
    (src recv : Vec3) (maxTime_s c_ms : ℝ) (h : latticeCond st room (maxTime_s * c_ms)) :
    (ims_shoebox_coreInit st room src recv maxTime_s c_ms).Nz
      = (⌊maxTime_s * c_ms / (room.2.2 : ℝ) + 1⌋).toNat := by
  show (coreInitStage2 (coreInitStage1 st room (maxTime_s * c_ms)) room _ _ _ _).Nz = _
  rw [coreInitStage2_Nz]
  unfold coreInitStage1
  rw [if_pos h]
  rfl

theorem coreInit_lengthVec_of_latticeCond (st : ims_core_workspace) (room : ℤ × ℤ × ℤ)
    (src recv : Vec3) (maxTime_s c_ms : ℝ) (h : latticeCond st room (maxTime_s * c_ms)) :
    (ims_shoebox_coreInit st room src recv maxTime_s c_ms).lengthVec
      = (2 * (⌊maxTime_s * c_ms / (room.1 : ℝ) + 1⌋).toNat + 1)
        * (2 * (⌊maxTime_s * c_ms / (room.2.1 : ℝ) + 1⌋).toNat + 1)
        * (2 * (⌊maxTime_s * c_ms / (room.2.2 : ℝ) + 1⌋).toNat + 1) := by
  show (coreInitStage2 (coreInitStage1 st room (maxTime_s * c_ms)) room _ _ _ _).lengthVec = _
  rw [coreInitStage2_lengthVec]
  unfold coreInitStage1
  rw [if_pos h]
  rfl

theorem coreInit_lattice_of_latticeCond (st : ims_core_workspace) (room : ℤ × ℤ × ℤ)
    (src recv : Vec3) (maxTime_s c_ms : ℝ) (h : latticeCond st room (maxTime_s * c_ms)) :
    (ims_shoebox_coreInit st room src recv maxTime_s c_ms).lattice
      = odoList (⌊maxTime_s * c_ms / (room.1 : ℝ) + 1⌋).toNat
          (⌊maxTime_s * c_ms / (room.2.1 : ℝ) + 1⌋).toNat
          (⌊maxTime_s * c_ms / (room.2.2 : ℝ) + 1⌋).toNat
          ((2 * (⌊maxTime_s * c_ms / (room.1 : ℝ) + 1⌋).toNat + 1)
            * (2 * (⌊maxTime_s * c_ms / (room.2.1 : ℝ) + 1⌋).toNat + 1)
            * (2 * (⌊maxTime_s * c_ms / (room.2.2 : ℝ) + 1⌋).toNat + 1))
          (-((⌊maxTime_s * c_ms / (room.1 : ℝ) + 1⌋).toNat : ℤ),
           -((⌊maxTime_s * c_ms / (room.2.1 : ℝ) + 1⌋).toNat : ℤ),
           -((⌊maxTime_s * c_ms / (room.2.2 : ℝ) + 1⌋).toNat : ℤ)) := by
  show (coreInitStage2 (coreInitStage1 st room (maxTime_s * c_ms)) room _ _ _ _).lattice = _
  rw [coreInitStage2_lattice]
  unfold coreInitStage1
  rw [if_pos h]
  rfl

/-- C4 counterexample: the claim states `N_axis = ceil(d_max / room_dim)`,
but for the call on a fresh workspace with room `(1,1,1)` and
`d_max = 1·1 = 1` (an exact integer multiple of the room dimension) the
code line 207, `(int)(d_max/room + 1.0f)`, yields `Nx = 2`, whereas
`ceil(1/1) = 1`. -/
theorem C4_lattice_ceil_counterexample :
    latticeCond W0 (1, 1, 1) (1 * 1)
    ∧ ((ims_shoebox_coreInit W0 (1, 1, 1) (0, 0, 0) (0, 0, 0) 1 1).Nx : ℤ) = 2
    ∧ ⌈(1 : ℝ) * 1 / ((1 : ℤ) : ℝ)⌉ = 1 := by
  have h : latticeCond W0 (1, 1, 1) (1 * 1) :=
    Or.inl (by simp [W0, ims_shoebox_coreWorkspaceCreate])
  refine ⟨h, ?_, by norm_num⟩
  rw [coreInit_Nx_of_latticeCond W0 (1, 1, 1) (0, 0, 0) (0, 0, 0) 1 1 h]
  norm_num

/-- C4 (amended): for every call in which `d_max` or a room dimension
differs from the cached values, each per-axis bound satisfies
`N_axis = floor(d_max / room_dim_axis) + 1` (this equals
`ceil(d_max / room_dim_axis)` except when `d_max` is an exact integer
multiple of the room dimension, where it is one larger), the lattice
contains exactly `(2Nx+1)·(2Ny+1)·(2Nz+1)` points, and the stored
`(i,j,k)` triples enumerate every integer triple of
`[-Nx,Nx] × [-Ny,Ny] × [-Nz,Nz]` in odometer order (`i` fastest,
carrying into `j`, then `k`), as per the closed form `odoDecode`. -/
theorem C4_lattice_odometer_amended (st : ims_core_workspace) (room : ℤ × ℤ × ℤ)
    (src recv : Vec3) (maxTime_s c_ms : ℝ)
    (h : latticeCond st room (maxTime_s * c_ms)) (hd : 0 ≤ maxTime_s * c_ms)
    (h1 : 0 < room.1) (h2 : 0 < room.2.1) (h3 : 0 < room.2.2) :
    (((ims_shoebox_coreInit st room src recv maxTime_s c_ms).Nx : ℤ)
        = ⌊maxTime_s * c_ms / (room.1 : ℝ)⌋ + 1)
    ∧ (((ims_shoebox_coreInit st room src recv maxTime_s c_ms).Ny : ℤ)
        = ⌊maxTime_s * c_ms / (room.2.1 : ℝ)⌋ + 1)
    ∧ (((ims_shoebox_coreInit st room src recv maxTime_s c_ms).Nz : ℤ)
        = ⌊maxTime_s * c_ms / (room.2.2 : ℝ)⌋ + 1)
    ∧ (ims_shoebox_coreInit st room src recv maxTime_s c_ms).lengthVec
        = (2 * (ims_shoebox_coreInit st room src recv maxTime_s c_ms).Nx + 1)
          * (2 * (ims_shoebox_coreInit st room src recv maxTime_s c_ms).Ny + 1)
          * (2 * (ims_shoebox_coreInit st room src recv maxTime_s c_ms).Nz + 1)
    ∧ (ims_shoebox_coreInit st room src recv maxTime_s c_ms).lattice.length
        = (ims_shoebox_coreInit st room src recv maxTime_s c_ms).lengthVec
    ∧ (∀ m, m < (ims_shoebox_coreInit st room src recv maxTime_s c_ms).lengthVec →
        (ims_shoebox_coreInit st room src recv maxTime_s c_ms).lattice.getD m (0, 0, 0)
          = odoDecode (ims_shoebox_coreInit st room src recv maxTime_s c_ms).Nx
              (ims_shoebox_coreInit st room src recv maxTime_s c_ms).Ny
              (ims_shoebox_coreInit st room src recv maxTime_s c_ms).Nz m)
    ∧ (∀ i j k : ℤ,
        -((ims_shoebox_coreInit st room src recv maxTime_s c_ms).Nx : ℤ) ≤ i →
        i ≤ ((ims_shoebox_coreInit st room src recv maxTime_s c_ms).Nx : ℤ) →
        -((ims_shoebox_coreInit st room src recv maxTime_s c_ms).Ny : ℤ) ≤ j →
        j ≤ ((ims_shoebox_coreInit st room src recv maxTime_s c_ms).Ny : ℤ) →
        -((ims_shoebox_coreInit st room src recv maxTime_s c_ms).Nz : ℤ) ≤ k →
        k ≤ ((ims_shoebox_coreInit st room src recv maxTime_s c_ms).Nz : ℤ) →
        ∃ m, m < (ims_shoebox_coreInit st room src recv maxTime_s c_ms).lengthVec
          ∧ (ims_shoebox_coreInit st room src recv maxTime_s c_ms).lattice.getD m (0, 0, 0)
              = (i, j, k)) := by
  have hNx := coreInit_Nx_of_latticeCond st room src recv maxTime_s c_ms h
  have hNy := coreInit_Ny_of_latticeCond st room src recv maxTime_s c_ms h
  have hNz := coreInit_Nz_of_latticeCond st room src recv maxTime_s c_ms h
  have hLV := coreInit_lengthVec_of_latticeCond st room src recv maxTime_s c_ms h
  have hLat := coreInit_lattice_of_latticeCond st room src recv maxTime_s c_ms h
  have fx : ((⌊maxTime_s * c_ms / (room.1 : ℝ) + 1⌋).toNat : ℤ)
      = ⌊maxTime_s * c_ms / (room.1 : ℝ)⌋ + 1 := by
    have hx0 : (0 : ℝ) ≤ maxTime_s * c_ms / (room.1 : ℝ) :=
      div_nonneg hd (by exact_mod_cast h1.le)
    have hf := Int.floor_nonneg.mpr hx0
    rw [Int.floor_add_one, Int.toNat_of_nonneg (by omega)]
  have fy : ((⌊maxTime_s * c_ms / (room.2.1 : ℝ) + 1⌋).toNat : ℤ)
      = ⌊maxTime_s * c_ms / (room.2.1 : ℝ)⌋ + 1 := by
    have hx0 : (0 : ℝ) ≤ maxTime_s * c_ms / (room.2.1 : ℝ) :=
      div_nonneg hd (by exact_mod_cast h2.le)
    have hf := Int.floor_nonneg.mpr hx0
    rw [Int.floor_add_one, Int.toNat_of_nonneg (by omega)]
  have fz : ((⌊maxTime_s * c_ms / (room.2.2 : ℝ) + 1⌋).toNat : ℤ)
      = ⌊maxTime_s * c_ms / (room.2.2 : ℝ)⌋ + 1 := by
    have hx0 : (0 : ℝ) ≤ maxTime_s * c_ms / (room.2.2 : ℝ) :=
      div_nonneg hd (by exact_mod_cast h3.le)
    have hf := Int.floor_nonneg.mpr hx0
    rw [Int.floor_add_one, Int.toNat_of_nonneg (by omega)]
  refine ⟨by rw [hNx]; exact fx, by rw [hNy]; exact fy, by rw [hNz]; exact fz, ?_, ?_, ?_, ?_⟩
  · rw [hLV, hNx, hNy, hNz]
  · rw [hLat, odoList_length, hLV]
  · intro m hm
    rw [hLat, hNx, hNy, hNz]
    rw [hLV] at hm
    exact lattice_getD_decode _ _ _ _ m hm
  · intro i j k hi1 hi2 hj1 hj2 hk1 hk2
    rw [hNx] at hi1 hi2
    rw [hNy] at hj1 hj2
    rw [hNz] at hk1 hk2
    obtain ⟨m, hm, hdec⟩ := odoDecode_surjective_on_box _ _ _ i j k hi1 hi2 hj1 hj2 hk1 hk2
    refine ⟨m, ?_, ?_⟩
    · rw [hLV]
      exact hm
    · rw [hLat, lattice_getD_decode _ _ _ _ m hm]
      exact hdec

theorem C4_lattice_odometer_amended_witness :
    latticeCond W0 (1, 1, 1) ((1 : ℝ) * 1) ∧ (0 : ℝ) ≤ (1 : ℝ) * 1 ∧ (0 : ℤ) < 1
    ∧ ((ims_shoebox_coreInit W0 (1, 1, 1) (0, 0, 0) (0, 0, 0) 1 1).Nx : ℤ)
        = ⌊(1 : ℝ) * 1 / ((1 : ℤ) : ℝ)⌋ + 1 :=
  have h : latticeCond W0 (1, 1, 1) ((1 : ℝ) * 1) :=
    Or.inl (by simp [W0, ims_shoebox_coreWorkspaceCreate])
  ⟨h, by norm_num, by norm_num,
    (C4_lattice_odometer_amended W0 (1, 1, 1) (0, 0, 0) (0, 0, 0) 1 1 h (by norm_num)
      (by norm_num) (by norm_num) (by norm_num)).1⟩

theorem coreInitStage1_s (st : ims_core_workspace) (room : ℤ × ℤ × ℤ) (d_max : ℝ) :
    (coreInitStage1 st room d_max).s = st.s := by
  unfold coreInitStage1
  split <;> rfl

/-- C3 counterexample: a call on `Wstale` (cached room `(2,2,2)`, cached
centred positions `(0,0,0)`) with new room `(2,2,4)` and world positions
`(1,1,2)` whose centred coordinates again equal `(0,0,0)`.  The room
dimension differs from the cached value, yet the image-source
coordinates are not recomputed (`s` stays the stale empty list although
the refreshed lattice has 27 points) and the raw echogram is left stale:
the first block refreshes the cached room before the second block's
comparison, so a room change alone does not trigger the echogram
recomputation the claim requires. -/
theorem C3_stale_room_counterexample :
    Wstale.room.2.2 ≠ ((2, 2, 4) : ℤ × ℤ × ℤ).2.2
    ∧ (ims_shoebox_coreInit Wstale (2, 2, 4) (1, 1, 2) (1, 1, 2) 1 1).s = []
    ∧ (ims_shoebox_coreInit Wstale (2, 2, 4) (1, 1, 2) (1, 1, 2) 1 1).lattice.length = 27
    ∧ (ims_shoebox_coreInit Wstale (2, 2, 4) (1, 1, 2) (1, 1, 2) 1 1).hEchogram
        = emptyEchogram := by
  have hlc : latticeCond Wstale (2, 2, 4) ((1 : ℝ) * 1) :=
    Or.inr (Or.inr (Or.inr (by simp [Wstale, W0, ims_shoebox_coreWorkspaceCreate])))
  have hec : ¬ echogramCond (coreInitStage1 Wstale (2, 2, 4) ((1 : ℝ) * 1))
      (centerOrig (2, 2, 4) (1, 1, 2)) (centerOrig (2, 2, 4) (1, 1, 2)) (2, 2, 4) := by
    unfold echogramCond
    push_neg
    refine ⟨?_, ?_, ?_, ?_, ?_⟩
    · rw [coreInitStage1_recv]
      simp [Wstale, W0, ims_shoebox_coreWorkspaceCreate, centerOrig, Prod.ext_iff]
      norm_num
    · rw [coreInitStage1_src]
      simp [Wstale, W0, ims_shoebox_coreWorkspaceCreate, centerOrig, Prod.ext_iff]
      norm_num
    · rw [coreInitStage1_room]
    · rw [coreInitStage1_room]
    · rw [coreInitStage1_room]
  have hs2 : ims_shoebox_coreInit Wstale (2, 2, 4) (1, 1, 2) (1, 1, 2) 1 1
      = coreInitStage1 Wstale (2, 2, 4) ((1 : ℝ) * 1) := by
    show coreInitStage2 (coreInitStage1 Wstale (2, 2, 4) ((1 : ℝ) * 1)) (2, 2, 4)
        (centerOrig (2, 2, 4) (1, 1, 2)) (centerOrig (2, 2, 4) (1, 1, 2)) ((1 : ℝ) * 1) 1 = _
    unfold coreInitStage2
    rw [if_neg hec]
  refine ⟨by simp [Wstale, W0, ims_shoebox_coreWorkspaceCreate], ?_, ?_, ?_⟩
  · rw [hs2, coreInitStage1_s]
    simp [Wstale, W0, ims_shoebox_coreWorkspaceCreate]
  · rw [hs2]
    unfold coreInitStage1
    rw [if_pos hlc]
    show (odoList _ _ _ _ _).length = 27
    rw [odoList_length]
    norm_num
  · rw [hs2, coreInitStage1_hEchogram]
    simp [Wstale, W0, ims_shoebox_coreWorkspaceCreate]

theorem zip_self_map {α β : Type} (l : List α) (f : α → β) :
    l.zip (l.map f) = l.map (fun a => (a, f a)) := by
  induction l with
  | nil => rfl
  | cons x xs ih => simp [ih]

theorem zip_s_s_d_eq_entries (w : ims_core_workspace) (room : ℤ × ℤ × ℤ)
    (srcO recO : Vec3) (d_max c_ms : ℝ) :
    (recomputeEchogram w room srcO recO d_max c_ms).lattice.zip
        ((recomputeEchogram w room srcO recO d_max c_ms).s.zip
          (recomputeEchogram w room srcO recO d_max c_ms).s_d)
      = latticeEntries w room srcO recO := by
  rw [recomputeEchogram_lattice, recomputeEchogram_s, recomputeEchogram_s_d,
    List.zip_map', zip_self_map]
  rfl

theorem roundOrder_eq (m : ℤ) : roundOrder m = if 0 ≤ m then m else m + 1 := by
  unfold roundOrder intCastC
  by_cases hm : 0 ≤ m
  · have hx : (0 : ℝ) ≤ (m : ℝ) + 1 / 2 := by
      have hm0 : (0 : ℝ) ≤ (m : ℝ) := by exact_mod_cast hm
      linarith
    rw [if_pos hx, if_pos hm, Int.floor_int_add]
    norm_num
  · have hm1 : m ≤ -1 := by omega
    have hx : ¬ ((0 : ℝ) ≤ (m : ℝ) + 1 / 2) := by
      have hm0 : (m : ℝ) ≤ -1 := by exact_mod_cast hm1
      push_neg
      linarith
    rw [if_neg hx, if_neg hm, add_comm ((m : ℝ)) (1 / 2), Int.ceil_add_int]
    have hc : ⌈(1 : ℝ) / 2⌉ = 1 := by
      rw [Int.ceil_eq_iff] <;> norm_num
    rw [hc]
    ring

/-- C3 (amended): for every call in which the room-centred source or
receiver position differs from the value cached in the workspace (the
cached positions are stored room-centred; a change of the room alone does
not trigger this branch, because the first block refreshes the cached
room before the comparison at lines 246-248), the per-lattice-point
image-source coordinates are recomputed per axis as
`s = i·L + (-1)^i·src_centred - rec_centred`, with the room-centred
translation using `L/2 - y` on the y axis and the `y - L/2` form on x and
z, each distance is recomputed as the Euclidean norm of
`(s_x, s_y, s_z)`, and the raw echogram (orders, coordinates, times,
gains) is rebuilt from these values; the stored reflection-order
components are the `(int)(II+0.5f)` truncation-roundings of the lattice
indices, i.e. `i` for `i ≥ 0` and `i + 1` for `i < 0`. -/
theorem C3_recompute_formulas_amended (st : ims_core_workspace) (room : ℤ × ℤ × ℤ)
    (src recv : Vec3) (maxTime_s c_ms : ℝ)
    (h : st.recv ≠ centerOrig room recv ∨ st.src ≠ centerOrig room src) :
    (ims_shoebox_coreInit st room src recv maxTime_s c_ms).s
      = (ims_shoebox_coreInit st room src recv maxTime_s c_ms).lattice.map (fun t =>
          ((t.1 : ℝ) * (room.1 : ℝ)
              + (-1 : ℝ) ^ t.1 * (src.1 - (room.1 : ℝ) / 2) - (recv.1 - (room.1 : ℝ) / 2),
           (t.2.1 : ℝ) * (room.2.1 : ℝ)
              + (-1 : ℝ) ^ t.2.1 * ((room.2.1 : ℝ) / 2 - src.2.1)
              - ((room.2.1 : ℝ) / 2 - recv.2.1),
           (t.2.2 : ℝ) * (room.2.2 : ℝ)
              + (-1 : ℝ) ^ t.2.2 * (src.2.2 - (room.2.2 : ℝ) / 2)
              - (recv.2.2 - (room.2.2 : ℝ) / 2)))
    ∧ (ims_shoebox_coreInit st room src recv maxTime_s c_ms).s_d
        = (ims_shoebox_coreInit st room src recv maxTime_s c_ms).s.map (fun p =>
            Real.sqrt (p.1 ^ 2 + p.2.1 ^ 2 + p.2.2 ^ 2))
    ∧ (ims_shoebox_coreInit st room src recv maxTime_s c_ms).hEchogram.order
        = (((ims_shoebox_coreInit st room src recv maxTime_s c_ms).lattice.zip
              ((ims_shoebox_coreInit st room src recv maxTime_s c_ms).s.zip
                (ims_shoebox_coreInit st room src recv maxTime_s c_ms).s_d)).filter
            (fun e => decide (e.2.2 < maxTime_s * c_ms))).map (fun e =>
            ((if 0 ≤ e.1.1 then e.1.1 else e.1.1 + 1),
             (if 0 ≤ e.1.2.1 then e.1.2.1 else e.1.2.1 + 1),
             (if 0 ≤ e.1.2.2 then e.1.2.2 else e.1.2.2 + 1)))
    ∧ (ims_shoebox_coreInit st room src recv maxTime_s c_ms).hEchogram.coords
        = (((ims_shoebox_coreInit st room src recv maxTime_s c_ms).lattice.zip
              ((ims_shoebox_coreInit st room src recv maxTime_s c_ms).s.zip
                (ims_shoebox_coreInit st room src recv maxTime_s c_ms).s_d)).filter
            (fun e => decide (e.2.2 < maxTime_s * c_ms))).map (fun e => e.2.1)
    ∧ (ims_shoebox_coreInit st room src recv maxTime_s c_ms).hEchogram.time
        = (((ims_shoebox_coreInit st room src recv maxTime_s c_ms).lattice.zip
              ((ims_shoebox_coreInit st room src recv maxTime_s c_ms).s.zip
                (ims_shoebox_coreInit st room src recv maxTime_s c_ms).s_d)).filter
            (fun e => decide (e.2.2 < maxTime_s * c_ms))).map (fun e => e.2.2 / c_ms)
    ∧ (ims_shoebox_coreInit st room src recv maxTime_s c_ms).hEchogram.value
        = (((ims_shoebox_coreInit st room src recv maxTime_s c_ms).lattice.zip
              ((ims_shoebox_coreInit st room src recv maxTime_s c_ms).s.zip
                (ims_shoebox_coreInit st room src recv maxTime_s c_ms).s_d)).filter
            (fun e => decide (e.2.2 < maxTime_s * c_ms))).map
            (fun e => [reflAtten e.2.2]) := by
  have hrec : echogramRecomputed st room src recv maxTime_s c_ms := by
    unfold echogramRecomputed echogramCond
    rcases h with h | h
    · exact Or.inl (by rw [coreInitStage1_recv]; exact h)
    · exact Or.inr (Or.inl (by rw [coreInitStage1_src]; exact h))
  rw [coreInit_eq_recompute st room src recv maxTime_s c_ms hrec]
  rw [zip_s_s_d_eq_entries]
  refine ⟨?_, ?_, ?_, ?_, ?_, ?_⟩
  · rw [recomputeEchogram_s, recomputeEchogram_lattice]
    simp [imageSourceCoord, centerOrig]
  · rw [recomputeEchogram_s, recomputeEchogram_s_d, List.map_map]
    simp [distOf]
  · rw [recomputeEchogram_hEchogram]
    show (validLatticeEntries _ _ _ _ _).map _ = _
    refine List.map_congr_left ?_
    intro e _
    simp only [roundOrder_eq]
  · rw [recomputeEchogram_hEchogram]
    rfl
  · rw [recomputeEchogram_hEchogram]
    rfl
  · rw [recomputeEchogram_hEchogram]
    rfl

theorem C3_recompute_formulas_amended_witness :
    (W0.recv ≠ centerOrig (1, 1, 1) (0, 0, 0) ∨ W0.src ≠ centerOrig (1, 1, 1) (0, 0, 0))
    ∧ (ims_shoebox_coreInit W0 (1, 1, 1) (0, 0, 0) (0, 0, 0) 1 1).s_d
        = (ims_shoebox_coreInit W0 (1, 1, 1) (0, 0, 0) (0, 0, 0) 1 1).s.map (fun p =>
            Real.sqrt (p.1 ^ 2 + p.2.1 ^ 2 + p.2.2 ^ 2)) :=
  have h : W0.recv ≠ centerOrig (1, 1, 1) (0, 0, 0) ∨ W0.src ≠ centerOrig (1, 1, 1) (0, 0, 0) :=
    Or.inl (by simp [W0, ims_shoebox_coreWorkspaceCreate, centerOrig, Prod.ext_iff])
  ⟨h, (C3_recompute_formulas_amended W0 (1, 1, 1) (0, 0, 0) (0, 0, 0) 1 1 h).2.1⟩

theorem sortf_perm (ts : List ℝ) : (sortf ts).Perm (List.range ts.length) :=
  List.perm_insertionSort _ _

theorem sortf_sorted (ts : List ℝ) : List.Sorted (timeLE ts) (sortf ts) :=
  List.sorted_insertionSort _ _

theorem sortf_length (ts : List ℝ) : (sortf ts).length = ts.length :=
  (List.perm_insertionSort _ _).length_eq.trans (List.length_range _)

theorem sortf_consecutive (ts : List ℝ) (i : ℕ) (h : i + 1 < (sortf ts).length) :
    ts.getD ((sortf ts).getD i 0) 0 ≤ ts.getD ((sortf ts).getD (i + 1) 0) 0 := by
  have hc := List.Pairwise.chain' (sortf_sorted ts)
  rw [List.chain'_iff_get] at hc
  have hrel := hc i (by omega)
  have h1 : (sortf ts).getD i 0 = (sortf ts).get ⟨i, by omega⟩ := by
    rw [List.getD_eq_getElem _ _ (by omega)]
    simp
  have h2 : (sortf ts).getD (i + 1) 0 = (sortf ts).get ⟨i + 1, by omega⟩ := by
    rw [List.getD_eq_getElem _ _ (by omega)]
    simp
  rw [h1, h2]
  exact hrel

/-- C5: after every echogram recomputation by `ims_shoebox_coreInit`, the
raw echogram's `sortedIdx` is a permutation of `[0, numImageSources)` and
`time[sortedIdx[i]] ≤ time[sortedIdx[i+1]]` for every consecutive pair,
while the underlying arrays remain in lattice-enumeration order:
`sortedIdx` is computed by the index sort from the `time` array without
rearranging it. -/
theorem C5_sortedIdx_sorting_permutation (st : ims_core_workspace) (room : ℤ × ℤ × ℤ)
    (src recv : Vec3) (maxTime_s c_ms : ℝ)
    (h : echogramRecomputed st room src recv maxTime_s c_ms) :
    (ims_shoebox_coreInit st room src recv maxTime_s c_ms).hEchogram.sortedIdx.Perm
        (List.range
          (ims_shoebox_coreInit st room src recv maxTime_s c_ms).hEchogram.numImageSources)
    ∧ (∀ i, i + 1
          < (ims_shoebox_coreInit st room src recv maxTime_s c_ms).hEchogram.numImageSources →
        (ims_shoebox_coreInit st room src recv maxTime_s c_ms).hEchogram.time.getD
            ((ims_shoebox_coreInit st room src recv maxTime_s c_ms).hEchogram.sortedIdx.getD
              i 0) 0
          ≤ (ims_shoebox_coreInit st room src recv maxTime_s c_ms).hEchogram.time.getD
              ((ims_shoebox_coreInit st room src recv maxTime_s c_ms).hEchogram.sortedIdx.getD
                (i + 1) 0) 0)
    ∧ (ims_shoebox_coreInit st room src recv maxTime_s c_ms).hEchogram.sortedIdx
        = sortf (ims_shoebox_coreInit st room src recv maxTime_s c_ms).hEchogram.time := by
  rw [coreInit_eq_recompute st room src recv maxTime_s c_ms h, recomputeEchogram_hEchogram]
  have hlen : ((validLatticeEntries (coreInitStage1 st room (maxTime_s * c_ms)) room
      (centerOrig room src) (centerOrig room recv) (maxTime_s * c_ms)).map
        (fun e => e.2.2 / c_ms)).length
      = (recomputeEchogram (coreInitStage1 st room (maxTime_s * c_ms)) room
          (centerOrig room src) (centerOrig room recv) (maxTime_s * c_ms) c_ms).numImageSources := by
    rw [List.length_map]
    exact validLatticeEntries_length _ _ _ _ _ _
  refine ⟨?_, ?_, rfl⟩
  · show (sortf _).Perm _
    rw [← hlen]
    exact sortf_perm _
  · intro i hi
    show ((validLatticeEntries _ _ _ _ _).map (fun e => e.2.2 / c_ms)).getD
        ((sortf _).getD i 0) 0 ≤ _
    refine sortf_consecutive _ i ?_
    rw [sortf_length, hlen]
    exact hi

theorem C5_sortedIdx_sorting_permutation_witness :
    echogramRecomputed W0 (2, 2, 2) (1, 1, 1) (1, 1, 1) 1 1
    ∧ (ims_shoebox_coreInit W0 (2, 2, 2) (1, 1, 1) (1, 1, 1) 1 1).hEchogram.sortedIdx.Perm
        (List.range
          (ims_shoebox_coreInit W0 (2, 2, 2) (1, 1, 1) (1, 1, 1) 1 1).hEchogram.numImageSources) :=
  have h : echogramRecomputed W0 (2, 2, 2) (1, 1, 1) (1, 1, 1) 1 1 := by
    unfold echogramRecomputed
    refine Or.inl ?_
    rw [coreInitStage1_recv]
    simp [W0, ims_shoebox_coreWorkspaceCreate, centerOrig, Prod.ext_iff]
  ⟨h, (C5_sortedIdx_sorting_permutation W0 (2, 2, 2) (1, 1, 1) (1, 1, 1) 1 1 h).1⟩

/-- C6: after every call to the directivity encoder
`ims_shoebox_coreRecModuleSH`, provided the source echogram's `sortedIdx`
orders its times ascending (the invariant `ims_shoebox_coreInit`
establishes), the destination echogram's `time` array is non-decreasing
in physical array order, its `sortedIdx` equals the identity permutation
on `[0, numImageSources)`, and its `time`/`order`/`coords` entries are
the source echogram's entries read through the source's `sortedIdx`. -/
theorem C6_directivity_time_order_identity (st : ims_core_workspace) (sh_order : ℕ)
    (shGains : ℕ → Vec3 → List ℝ)
    (h : ∀ i, i + 1 < st.hEchogram.numImageSources →
      st.hEchogram.time.getD (st.hEchogram.sortedIdx.getD i 0) 0
        ≤ st.hEchogram.time.getD (st.hEchogram.sortedIdx.getD (i + 1) 0) 0) :
    (∀ i, i + 1
        < (ims_shoebox_coreRecModuleSH st sh_order shGains).hEchogram_rec.numImageSources →
      (ims_shoebox_coreRecModuleSH st sh_order shGains).hEchogram_rec.time.getD i 0
        ≤ (ims_shoebox_coreRecModuleSH st sh_order shGains).hEchogram_rec.time.getD (i + 1) 0)
    ∧ (ims_shoebox_coreRecModuleSH st sh_order shGains).hEchogram_rec.sortedIdx
        = List.range
            (ims_shoebox_coreRecModuleSH st sh_order shGains).hEchogram_rec.numImageSources
    ∧ (∀ i, i
        < (ims_shoebox_coreRecModuleSH st sh_order shGains).hEchogram_rec.numImageSources →
      (ims_shoebox_coreRecModuleSH st sh_order shGains).hEchogram_rec.time.getD i 0
          = st.hEchogram.time.getD (st.hEchogram.sortedIdx.getD i 0) 0
      ∧ (ims_shoebox_coreRecModuleSH st sh_order shGains).hEchogram_rec.order.getD i (0, 0, 0)
          = st.hEchogram.order.getD (st.hEchogram.sortedIdx.getD i 0) (0, 0, 0)
      ∧ (ims_shoebox_coreRecModuleSH st sh_order shGains).hEchogram_rec.coords.getD i (0, 0, 0)
          = st.hEchogram.coords.getD (st.hEchogram.sortedIdx.getD i 0) (0, 0, 0)) := by
  refine ⟨?_, rfl, ?_⟩
  · intro i hi
    have hi1 : i < st.hEchogram.numImageSources := by
      exact Nat.lt_of_succ_lt hi
    have hi2 : i + 1 < st.hEchogram.numImageSources := hi
    have htime : (ims_shoebox_coreRecModuleSH st sh_order shGains).hEchogram_rec.time
        = (List.range st.hEchogram.numImageSources).map (fun j =>
            st.hEchogram.time.getD (st.hEchogram.sortedIdx.getD j 0) 0) := rfl
    rw [htime, getD_map_range _ _ hi1, getD_map_range _ _ hi2]
    exact h i hi2
  · intro i hi
    have hi1 : i < st.hEchogram.numImageSources := hi
    refine ⟨?_, ?_, ?_⟩
    · exact getD_map_range _ _ hi1
    · exact getD_map_range _ _ hi1
    · exact getD_map_range _ _ hi1

theorem C6_directivity_time_order_identity_witness :
    (∀ i, i + 1 < Wraw.hEchogram.numImageSources →
      Wraw.hEchogram.time.getD (Wraw.hEchogram.sortedIdx.getD i 0) 0
        ≤ Wraw.hEchogram.time.getD (Wraw.hEchogram.sortedIdx.getD (i + 1) 0) 0)
    ∧ (ims_shoebox_coreRecModuleSH Wraw 0 (fun _ _ => [])).hEchogram_rec.sortedIdx
        = List.range
            (ims_shoebox_coreRecModuleSH Wraw 0 (fun _ _ => [])).hEchogram_rec.numImageSources :=
  have h : ∀ i, i + 1 < Wraw.hEchogram.numImageSources →
      Wraw.hEchogram.time.getD (Wraw.hEchogram.sortedIdx.getD i 0) 0
        ≤ Wraw.hEchogram.time.getD (Wraw.hEchogram.sortedIdx.getD (i + 1) 0) 0 := by
    intro i hi
    have hW : Wraw.hEchogram = egTwo := rfl
    rw [hW] at hi ⊢
    have hi2 : i + 1 < 2 := by simpa [egTwo] using hi
    have hi0 : i = 0 := by omega
    subst hi0
    norm_num [egTwo, List.getD_cons_zero, List.getD_cons_succ]
  ⟨h, (C6_directivity_time_order_identity Wraw 0 (fun _ _ => []) h).2.1⟩

/-- C7: for spherical-harmonic order 0 the directivity encoder produces a
1-channel echogram whose gain rows are exactly the raw omnidirectional
echogram's gain rows reordered through the raw `sortedIdx` (given that
the raw echogram is 1-channel: each of its gain rows has one entry), and
no spherical-harmonic weighting is applied: the result does not depend on
the spherical-harmonic evaluator at all. -/
theorem C7_order0_gain_copy (st : ims_core_workspace) (shGains : ℕ → Vec3 → List ℝ)
    (hlen : st.hEchogram.value.length = st.hEchogram.numImageSources)
    (hrows : ∀ v ∈ st.hEchogram.value, v.length = 1)
    (hidx : ∀ i, i < st.hEchogram.numImageSources →
      st.hEchogram.sortedIdx.getD i 0 < st.hEchogram.numImageSources) :
    (ims_shoebox_coreRecModuleSH st 0 shGains).hEchogram_rec.nChannels = 1
    ∧ (∀ i, i < st.hEchogram.numImageSources →
        (ims_shoebox_coreRecModuleSH st 0 shGains).hEchogram_rec.value.getD i []
          = st.hEchogram.value.getD (st.hEchogram.sortedIdx.getD i 0) [])
    ∧ (∀ g g' : ℕ → Vec3 → List ℝ,
        ims_shoebox_coreRecModuleSH st 0 g = ims_shoebox_coreRecModuleSH st 0 g') := by
  refine ⟨rfl, ?_, fun g g' => rfl⟩
  intro i hi
  have hσ : st.hEchogram.sortedIdx.getD i 0 < st.hEchogram.value.length := by
    rw [hlen]
    exact hidx i hi
  have hval : (ims_shoebox_coreRecModuleSH st 0 shGains).hEchogram_rec.value
      = (List.range st.hEchogram.numImageSources).map (fun j =>
          [(gainRow st.hEchogram (st.hEchogram.sortedIdx.getD j 0)).getD 0 0]) := rfl
  rw [hval, getD_map_range _ _ hi]
  have hgetD : st.hEchogram.value.getD (st.hEchogram.sortedIdx.getD i 0) []
      = st.hEchogram.value[st.hEchogram.sortedIdx.getD i 0] :=
    List.getD_eq_getElem _ _ hσ
  have hmem : st.hEchogram.value[st.hEchogram.sortedIdx.getD i 0] ∈ st.hEchogram.value :=
    List.getElem_mem _
  obtain ⟨a, ha⟩ := List.length_eq_one.mp (hrows _ hmem)
  rw [gainRow, hgetD, ha]
  rfl

theorem C7_order0_gain_copy_witness :
    Wraw.hEchogram.value.length = Wraw.hEchogram.numImageSources
    ∧ (∀ v ∈ Wraw.hEchogram.value, v.length = 1)
    ∧ (∀ i, i < Wraw.hEchogram.numImageSources →
        Wraw.hEchogram.sortedIdx.getD i 0 < Wraw.hEchogram.numImageSources)
    ∧ (ims_shoebox_coreRecModuleSH Wraw 0 (fun _ _ => [1])).hEchogram_rec.nChannels = 1 :=
  have h1 : Wraw.hEchogram.value.length = Wraw.hEchogram.numImageSources := rfl
  have h2 : ∀ v ∈ Wraw.hEchogram.value, v.length = 1 := by
    intro v hv
    have hW : Wraw.hEchogram = egTwo := rfl
    rw [hW] at hv
    simp [egTwo] at hv
    rcases hv with hv | hv <;> rw [hv] <;> rfl
  have h3 : ∀ i, i < Wraw.hEchogram.numImageSources →
      Wraw.hEchogram.sortedIdx.getD i 0 < Wraw.hEchogram.numImageSources := by
    intro i hi
    have hW : Wraw.hEchogram = egTwo := rfl
    rw [hW] at hi ⊢
    simp only [egTwo] at hi ⊢
    interval_cases i <;> simp [List.getD_cons_zero, List.getD_cons_succ]
  ⟨h1, h2, h3, (C7_order0_gain_copy Wraw (fun _ _ => [1]) h1 h2 h3).1⟩

theorem axisAttenuation_one_one (m : ℤ) : axisAttenuation 1 1 m = 1 := by
  unfold axisAttenuation
  split_ifs <;> simp

/-- C8: when every wall absorption coefficient of a band is `0`, the
per-arrival total attenuation scalar (the product of the three per-axis
attenuations built from reflection coefficients `r = sqrt(1 − absorption)`)
equals `1` for every reflection-order triple, and the absorption module
leaves that band's gain matrix equal to the directivity-encoded
echogram's gain matrix. -/
theorem C8_zero_absorption_lossless (st : ims_core_workspace) (abs_wall : ℕ → Fin 6 → ℝ)
    (band : ℕ) (hband : band < st.nBands)
    (habs : ∀ w : Fin 6, abs_wall band w = 0)
    (hlen : st.hEchogram_rec.value.length = st.hEchogram_rec.numImageSources) :
    (∀ ord : ℤ × ℤ × ℤ,
        totalAttenuation (fun w => reflectionCoeff (abs_wall band w)) ord = 1)
    ∧ ((ims_shoebox_coreAbsorptionModule st abs_wall).hEchogram_abs.getD band
          emptyEchogram).value = st.hEchogram_rec.value := by
  have hr : ∀ w : Fin 6, reflectionCoeff (abs_wall band w) = 1 := by
    intro w
    rw [reflectionCoeff, habs w, sub_zero, Real.sqrt_one]
  have hax : ∀ (r0 r1 : ℝ), r0 = 1 → r1 = 1 → ∀ m : ℤ, axisAttenuation r0 r1 m = 1 := by
    intro r0 r1 h0 h1 m
    rw [h0, h1, axisAttenuation_one_one]
  have htot : ∀ ord : ℤ × ℤ × ℤ,
      totalAttenuation (fun w => reflectionCoeff (abs_wall band w)) ord = 1 := by
    intro ord
    unfold totalAttenuation
    rw [hax _ _ (hr 0) (hr 1) _, hax _ _ (hr 2) (hr 3) _, hax _ _ (hr 4) (hr 5) _]
    norm_num
  refine ⟨htot, ?_⟩
  have hmod : (ims_shoebox_coreAbsorptionModule st abs_wall).hEchogram_abs
      = (List.range st.nBands).map (fun b =>
          { st.hEchogram_rec with
            value := (List.range st.hEchogram_rec.numImageSources).map (fun i =>
              (gainRow st.hEchogram_rec i).map
                (fun g => g * totalAttenuation
                  (fun w => reflectionCoeff (abs_wall b w))
                  (st.hEchogram_rec.order.getD i (0, 0, 0)))) }) := rfl
  rw [hmod, getD_map_range _ _ hband]
  show (List.range st.hEchogram_rec.numImageSources).map (fun i =>
      (gainRow st.hEchogram_rec i).map
        (fun g => g * totalAttenuation (fun w => reflectionCoeff (abs_wall band w))
          (st.hEchogram_rec.order.getD i (0, 0, 0)))) = st.hEchogram_rec.value
  have hrows : ∀ i ∈ List.range st.hEchogram_rec.numImageSources,
      (gainRow st.hEchogram_rec i).map
        (fun g => g * totalAttenuation (fun w => reflectionCoeff (abs_wall band w))
          (st.hEchogram_rec.order.getD i (0, 0, 0)))
        = gainRow st.hEchogram_rec i := by
    intro i _
    rw [htot]
    simp
  rw [List.map_congr_left hrows]
  conv_rhs => rw [list_eq_map_range_getD st.hEchogram_rec.value []]
  rw [hlen]
  rfl

theorem C8_zero_absorption_lossless_witness :
    (0 : ℕ) < Wrec.nBands
    ∧ (∀ w : Fin 6, (fun _ _ => (0 : ℝ) : ℕ → Fin 6 → ℝ) 0 w = 0)
    ∧ Wrec.hEchogram_rec.value.length = Wrec.hEchogram_rec.numImageSources
    ∧ ((ims_shoebox_coreAbsorptionModule Wrec (fun _ _ => 0)).hEchogram_abs.getD 0
          emptyEchogram).value = Wrec.hEchogram_rec.value :=
  have hband : (0 : ℕ) < Wrec.nBands := Nat.zero_lt_one
  have habs : ∀ w : Fin 6, (fun _ _ => (0 : ℝ) : ℕ → Fin 6 → ℝ) 0 w = 0 := fun _ => rfl
  have hlen : Wrec.hEchogram_rec.value.length = Wrec.hEchogram_rec.numImageSources := rfl
  ⟨hband, habs, hlen,
    (C8_zero_absorption_lossless Wrec (fun _ _ => 0) 0 hband habs hlen).2⟩

/-- C9 counterexample: the claim states
`rir_len_samples = ceil(endtime·fs) + 2`, but for a single arrival at
time `1/2` s with `fs = 1` the code line 442, `(int)(endtime·fs + 1) + 1`,
yields `⌊3/2⌋ + 1 = 2` samples, whereas `ceil(1/2) + 2 = 3`. -/
theorem C9_rirLen_ceil_counterexample :
    ims_rirLenSamples egHalf 1 = 2 ∧ ⌈ims_endtime egHalf * 1⌉ + 2 = 3 := by
  have he : ims_endtime egHalf = 1 / 2 := by
    rw [ims_endtime]
    norm_num [egHalf, List.getD_cons_zero]
  constructor
  · rw [ims_rirLenSamples, he]
    norm_num
  · rw [he]
    have hc : ⌈(1 : ℝ) / 2 * 1⌉ = 1 := by
      rw [Int.ceil_eq_iff] <;> norm_num
    rw [hc]
    norm_num

/-- C9 (amended): for every band echogram with `numImageSources ≥ 1`, the
RIR renderer computes `endtime` as the last arrival's time (the entry at
index `numImageSources − 1`, which is the last time-ordered arrival since
arrays are physically time-ordered from the directivity encoder onwards)
and sets the per-band impulse-train length to
`rir_len_samples = floor(endtime·fs) + 2` samples (this equals
`ceil(endtime·fs) + 1` except when `endtime·fs` is an exact integer,
where it is `ceil(endtime·fs) + 2`). -/
theorem C9_rirLen_amended (eg : echogram_data) (fs : ℝ)
    (hN : 1 ≤ eg.numImageSources) (hlen : eg.time.length = eg.numImageSources) :
    ims_endtime eg = eg.time.getD (eg.time.length - 1) 0
    ∧ ims_rirLenSamples eg fs = ⌊ims_endtime eg * fs⌋ + 2 := by
  constructor
  · rw [ims_endtime, hlen]
  · rw [ims_rirLenSamples, Int.floor_add_one]
    ring

theorem C9_rirLen_amended_witness :
    1 ≤ egHalf.numImageSources ∧ egHalf.time.length = egHalf.numImageSources
    ∧ ims_rirLenSamples egHalf 1 = ⌊ims_endtime egHalf * 1⌋ + 2 :=
  have hN : 1 ≤ egHalf.numImageSources := le_refl 1
  have hlen : egHalf.time.length = egHalf.numImageSources := rfl
  ⟨hN, hlen, (C9_rirLen_amended egHalf 1 hN hlen).2⟩

/-- C10: in the non-fractional-delay path of `ims_shoebox_renderRIR`,
for every band echogram with at least one arrival, non-negative times and
a non-decreasing time array (and a non-negative sample rate), every
accumulation index `round(time[i]·fs)` lies within
`[0, rir_len_samples)`, and the `endtime` read at index
`numImageSources − 1` is in bounds; the two extra samples beyond
`floor(endtime·fs)` cover the rounding up of the last arrival. -/
theorem C10_renderRIR_index_bounds (eg : echogram_data) (fs : ℝ)
    (hN : 1 ≤ eg.numImageSources) (hlen : eg.time.length = eg.numImageSources)
    (hpos : ∀ t ∈ eg.time, 0 ≤ t) (hsort : eg.time.Sorted (· ≤ ·)) (hfs : 0 ≤ fs) :
    (∀ i, i < eg.numImageSources →
      0 ≤ ims_reflIdx eg fs i ∧ ims_reflIdx eg fs i < ims_rirLenSamples eg fs)
    ∧ eg.numImageSources - 1 < eg.time.length := by
  constructor
  · intro i hi
    have hilen : i < eg.time.length := by omega
    have hlast : eg.numImageSources - 1 < eg.time.length := by omega
    have hti : eg.time.getD i 0 = eg.time[i] := List.getD_eq_getElem _ _ hilen
    have hte : eg.time.getD (eg.numImageSources - 1) 0
        = eg.time[eg.numImageSources - 1] := List.getD_eq_getElem _ _ hlast
    have htpos : 0 ≤ eg.time[i] := hpos _ (List.getElem_mem _)
    constructor
    · rw [ims_reflIdx, hti]
      refine Int.le_floor.mpr ?_
      have : 0 ≤ eg.time[i] * fs := mul_nonneg htpos hfs
      push_cast
      linarith
    · rw [ims_reflIdx, ims_rirLenSamples, ims_endtime, hti, hte]
      have hfin : (⟨i, hilen⟩ : Fin eg.time.length) ≤ ⟨eg.numImageSources - 1, hlast⟩ := by
        simp only [Fin.mk_le_mk]
        omega
      have hle0 := hsort.rel_get_of_le hfin
      have hle : eg.time[i] ≤ eg.time[eg.numImageSources - 1] := by
        simpa using hle0
      have hmul : eg.time[i] * fs ≤ eg.time[eg.numImageSources - 1] * fs :=
        mul_le_mul_of_nonneg_right hle hfs
      have hfl : ⌊eg.time[i] * fs + 1 / 2⌋ ≤ ⌊eg.time[eg.numImageSources - 1] * fs + 1⌋ := by
        refine Int.floor_le_floor ?_
        linarith
      omega
  · omega

theorem C10_renderRIR_index_bounds_witness :
    1 ≤ egHalf.numImageSources ∧ egHalf.time.length = egHalf.numImageSources
    ∧ (∀ t ∈ egHalf.time, (0 : ℝ) ≤ t) ∧ egHalf.time.Sorted (· ≤ ·) ∧ (0 : ℝ) ≤ 1
    ∧ (∀ i, i < egHalf.numImageSources →
        0 ≤ ims_reflIdx egHalf 1 i ∧ ims_reflIdx egHalf 1 i < ims_rirLenSamples egHalf 1) :=
  have hN : 1 ≤ egHalf.numImageSources := le_refl 1
  have hlen : egHalf.time.length = egHalf.numImageSources := rfl
  have hpos : ∀ t ∈ egHalf.time, (0 : ℝ) ≤ t := by
    intro t ht
    simp only [egHalf, List.mem_singleton] at ht
    rw [ht]
    norm_num
  have hsort : egHalf.time.Sorted (· ≤ ·) := by
    show ([1 / 2] : List ℝ).Sorted (· ≤ ·)
    simp
  have hfs : (0 : ℝ) ≤ 1 := by norm_num
  ⟨hN, hlen, hpos, hsort, hfs,
    (C10_renderRIR_index_bounds egHalf 1 hN hlen hpos hsort hfs).1⟩
